import Mathlib

/-!
Shallow embedding of the foundry planner (calendar_manager.py, orders_parser.py,
resource_manager.py, planner_engine.py, main.py) together with proofs about it.

Conventions of the embedding:
* Dates are integers (day numbers); day `0` is a Monday, so Python's
  `date.weekday()` is `d.emod 7` (`Int.emod` is non-negative for a positive
  modulus) and Saturday/Sunday are the residues 5 and 6.
* Python `int` is `Int`, Python `float` is `Rat` (the planner only ever adds,
  subtracts, multiplies, divides and rounds, so rational arithmetic models the
  intent of the float code; the one rounding-sensitive spot, `round(x, 3)`, is
  discussed at `round3`).
* Python `//` is `Int.fdiv` and `%` is `Int.fmod` (Python's floor-division
  pair), `math.ceil(a / b)` is `ceilDiv`.
* `defaultdict` counters are total functions with default `0`.
* Loops without a syntactic bound are given explicit fuel and return `Option`;
  `none` means the source loop did not finish within the fuel (or, where noted,
  that the Python code raises).  All recursions are structural so that every
  definition evaluates by `rfl`/`decide`.
-/

/-! ## Calendar (calendar_manager.py) -/

structure CalendarM where
  holidays : List Int
deriving DecidableEq

/-- `is_business_day`: weekday < 5 and not a holiday. -/
def is_business_day (c : CalendarM) (d : Int) : Bool :=
  decide (d.emod 7 < 5) && !(decide (d ∈ c.holidays))

/-- Upward search for the first business day, with fuel; models the
`while not is_business_day` loops of `calendar_manager.py`. -/
def searchUp (c : CalendarM) : Nat → Int → Int
  | 0, d => d
  | n + 1, d => if is_business_day c d then d else searchUp c n (d + 1)

/-- Downward search for the first business day, with fuel. -/
def searchDown (c : CalendarM) : Nat → Int → Int
  | 0, d => d
  | n + 1, d => if is_business_day c d then d else searchDown c n (d - 1)

/-- An upper bound for all holidays (0 if the list is empty). -/
def holidayMax (c : CalendarM) : Int := c.holidays.foldl max 0

/-- A lower bound for all holidays (0 if the list is empty). -/
def holidayMin (c : CalendarM) : Int := c.holidays.foldl min 0

/-- The first Monday strictly above both `x` and every holiday.  It is a
business day, which bounds how far the upward search can run. -/
def mondayAfter (c : CalendarM) (x : Int) : Int :=
  7 * ((max x (holidayMax c)).ediv 7 + 1)

/-- The last Monday strictly below both `x` and every holiday. -/
def mondayBefore (c : CalendarM) (x : Int) : Int :=
  7 * ((min x (holidayMin c)).ediv 7 - 1)

/-- `next_business_day`: the first business day strictly after `d`.  The
source steps one day at a time; the fuel `mondayAfter c (d+1) - (d+1) + 1`
provably suffices (`next_business_day_spec`). -/
def next_business_day (c : CalendarM) (d : Int) : Int :=
  searchUp c ((mondayAfter c (d + 1) - (d + 1)).toNat + 1) (d + 1)

/-- `prev_business_day`: the first business day strictly before `d`. -/
def prev_business_day (c : CalendarM) (d : Int) : Int :=
  searchDown c (((d - 1) - mondayBefore c (d - 1)).toNat + 1) (d - 1)

/-- Iterate a step function `n` times. -/
def iterN (f : Int → Int) : Nat → Int → Int
  | 0, d => d
  | n + 1, d => iterN f n (f d)

/-- `add_business_days`: the source walks one calendar day in the direction of
`n`'s sign and counts business days until `|n|` are seen, which lands exactly on
the `|n|`-th business day strictly after (resp. before) `start_date`; i.e. it is
the `|n|`-fold iterate of `next_business_day` (resp. `prev_business_day`).
`n = 0` returns `d` unchanged, as in the source. -/
def add_business_days (c : CalendarM) (d : Int) (n : Int) : Int :=
  if 0 ≤ n then iterN (next_business_day c) n.toNat d
  else iterN (prev_business_day c) (-n).toNat d

/-! ### Calendar lemmas -/

lemma le_foldl_max (l : List Int) (a : Int) : a ≤ l.foldl max a := by
  induction l generalizing a with
  | nil => exact le_rfl
  | cons y ys ih => exact le_trans (le_max_left a y) (ih (max a y))

lemma foldl_max_le (l : List Int) (a : Int) : ∀ x ∈ l, x ≤ l.foldl max a := by
  induction l generalizing a with
  | nil => simp
  | cons y ys ih =>
    intro x hx
    rcases List.mem_cons.mp hx with rfl | hx
    · exact le_trans (le_max_right a x) (le_foldl_max ys (max a x))
    · exact ih (max a y) x hx

lemma foldl_min_le (l : List Int) (a : Int) : l.foldl min a ≤ a := by
  induction l generalizing a with
  | nil => exact le_rfl
  | cons y ys ih => exact le_trans (ih (min a y)) (min_le_left a y)

lemma foldl_min_ge (l : List Int) (a : Int) : ∀ x ∈ l, l.foldl min a ≤ x := by
  induction l generalizing a with
  | nil => simp
  | cons y ys ih =>
    intro x hx
    rcases List.mem_cons.mp hx with rfl | hx
    · exact le_trans (foldl_min_le ys (min a x)) (min_le_right a x)
    · exact ih (min a y) x hx

lemma holidayMax_ge (c : CalendarM) : ∀ x ∈ c.holidays, x ≤ holidayMax c :=
  foldl_max_le c.holidays 0

lemma holidayMin_le (c : CalendarM) : ∀ x ∈ c.holidays, holidayMin c ≤ x :=
  foldl_min_ge c.holidays 0

lemma ediv_monday_gt (K : Int) : K < 7 * (K.ediv 7 + 1) := by
  show K < 7 * (K / 7 + 1)
  omega

lemma ediv_monday_lt (K : Int) : 7 * (K.ediv 7 - 1) < K := by
  show 7 * (K / 7 - 1) < K
  omega

lemma mondayAfter_ge (c : CalendarM) (x : Int) : x < mondayAfter c x :=
  lt_of_le_of_lt (le_max_left x (holidayMax c)) (ediv_monday_gt _)

lemma mondayAfter_biz (c : CalendarM) (x : Int) :
    is_business_day c (mondayAfter c x) = true := by
  unfold is_business_day
  have hmod : (mondayAfter c x).emod 7 = 0 := by
    unfold mondayAfter
    exact Int.mul_emod_right 7 _
  have hgt : holidayMax c < mondayAfter c x :=
    lt_of_le_of_lt (le_max_right x (holidayMax c)) (ediv_monday_gt _)
  have hnot : ¬ (mondayAfter c x ∈ c.holidays) := by
    intro hmem
    exact absurd (holidayMax_ge c _ hmem) (by omega)
  simp [hmod, hnot]

lemma mondayBefore_le (c : CalendarM) (x : Int) : mondayBefore c x < x :=
  lt_of_lt_of_le (ediv_monday_lt _) (min_le_left x (holidayMin c))

lemma mondayBefore_biz (c : CalendarM) (x : Int) :
    is_business_day c (mondayBefore c x) = true := by
  unfold is_business_day
  have hmod : (mondayBefore c x).emod 7 = 0 := by
    unfold mondayBefore
    exact Int.mul_emod_right 7 _
  have hlt : mondayBefore c x < holidayMin c :=
    lt_of_lt_of_le (ediv_monday_lt _) (min_le_right x (holidayMin c))
  have hnot : ¬ (mondayBefore c x ∈ c.holidays) := by
    intro hmem
    exact absurd (holidayMin_le c _ hmem) (by omega)
  simp [hmod, hnot]

/-- `searchUp` with enough fuel returns the least business day `≥ d`. -/
lemma searchUp_finds (c : CalendarM) :
    ∀ (n : Nat) (d b : Int), d ≤ b → b < d + n → is_business_day c b = true →
      d ≤ searchUp c n d ∧ is_business_day c (searchUp c n d) = true ∧
      searchUp c n d ≤ b ∧
      ∀ e, d ≤ e → e < searchUp c n d → is_business_day c e = false := by
  intro n
  induction n with
  | zero => intro d b hdb hb _; omega
  | succ n ih =>
    intro d b hdb hb hbiz
    by_cases hd : is_business_day c d
    · have hs : searchUp c (n + 1) d = d := by simp [searchUp, hd]
      rw [hs]
      exact ⟨le_rfl, hd, hdb, fun e h1 h2 => by omega⟩
    · have hs : searchUp c (n + 1) d = searchUp c n (d + 1) := by
        simp [searchUp, hd]
      have hdb' : d + 1 ≤ b := by
        rcases eq_or_lt_of_le hdb with rfl | h
        · exact absurd hbiz (by simpa using hd)
        · omega
      have hb' : b < (d + 1) + n := by omega
      obtain ⟨h1, h2, h3, h4⟩ := ih (d + 1) b hdb' hb' hbiz
      rw [hs]
      refine ⟨by omega, h2, h3, ?_⟩
      intro e he1 he2
      rcases eq_or_lt_of_le he1 with rfl | h
      · simpa using hd
      · exact h4 e (by omega) he2

/-- `searchDown` with enough fuel returns the greatest business day `≤ d`. -/
lemma searchDown_finds (c : CalendarM) :
    ∀ (n : Nat) (d b : Int), b ≤ d → d - n < b → is_business_day c b = true →
      searchDown c n d ≤ d ∧ is_business_day c (searchDown c n d) = true ∧
      b ≤ searchDown c n d ∧
      ∀ e, e ≤ d → searchDown c n d < e → is_business_day c e = false := by
  intro n
  induction n with
  | zero => intro d b hdb hb _; omega
  | succ n ih =>
    intro d b hdb hb hbiz
    by_cases hd : is_business_day c d
    · have hs : searchDown c (n + 1) d = d := by simp [searchDown, hd]
      rw [hs]
      exact ⟨le_rfl, hd, hdb, fun e h1 h2 => by omega⟩
    · have hs : searchDown c (n + 1) d = searchDown c n (d - 1) := by
        simp [searchDown, hd]
      have hdb' : b ≤ d - 1 := by
        rcases eq_or_lt_of_le hdb with rfl | h
        · exact absurd hbiz (by simpa using hd)
        · omega
      have hb' : (d - 1) - n < b := by omega
      obtain ⟨h1, h2, h3, h4⟩ := ih (d - 1) b hdb' hb' hbiz
      rw [hs]
      refine ⟨by omega, h2, h3, ?_⟩
      intro e he1 he2
      rcases eq_or_lt_of_le he1 with rfl | h
      · simpa using hd
      · exact h4 e (by omega) he2

/-- Characterization of `next_business_day`: it is a business day, it is
strictly after `d`, and no day strictly between is a business day. -/
lemma next_business_day_spec (c : CalendarM) (d : Int) :
    d < next_business_day c d ∧
    is_business_day c (next_business_day c d) = true ∧
    next_business_day c d ≤ mondayAfter c (d + 1) ∧
    ∀ e, d < e → e < next_business_day c d → is_business_day c e = false := by
  have hb := mondayAfter_biz c (d + 1)
  have hge := mondayAfter_ge c (d + 1)
  have hfuel : mondayAfter c (d + 1) < (d + 1) + (((mondayAfter c (d + 1) - (d + 1)).toNat : Int) + 1) := by
    omega
  obtain ⟨h1, h2, h3, h4⟩ := searchUp_finds c ((mondayAfter c (d + 1) - (d + 1)).toNat + 1)
    (d + 1) (mondayAfter c (d + 1)) (by omega) (by push_cast; omega) hb
  exact ⟨by unfold next_business_day; omega,
    h2, h3, fun e he1 he2 => h4 e (by omega) he2⟩

lemma next_business_day_gt (c : CalendarM) (d : Int) : d < next_business_day c d :=
  (next_business_day_spec c d).1

lemma next_business_day_biz (c : CalendarM) (d : Int) :
    is_business_day c (next_business_day c d) = true :=
  (next_business_day_spec c d).2.1

/-- Minimality: any business day strictly after `d` is at or after
`next_business_day c d`. -/
lemma next_business_day_le (c : CalendarM) {d e : Int} (h1 : d < e)
    (h2 : is_business_day c e = true) : next_business_day c d ≤ e := by
  by_contra h
  exact absurd ((next_business_day_spec c d).2.2.2 e h1 (by omega)) (by simp [h2])

lemma prev_business_day_spec (c : CalendarM) (d : Int) :
    prev_business_day c d < d ∧
    is_business_day c (prev_business_day c d) = true := by
  have hb := mondayBefore_biz c (d - 1)
  have hle := mondayBefore_le c (d - 1)
  obtain ⟨h1, h2, _, _⟩ := searchDown_finds c (((d - 1) - mondayBefore c (d - 1)).toNat + 1)
    (d - 1) (mondayBefore c (d - 1)) (by omega) (by push_cast; omega) hb
  exact ⟨by unfold prev_business_day; omega, h2⟩

/-- `add_business_days` with `n = 1` is `next_business_day`. -/
lemma add_business_days_one (c : CalendarM) (d : Int) :
    add_business_days c d 1 = next_business_day c d := by
  simp [add_business_days, iterN]

lemma add_business_days_one_gt (c : CalendarM) (d : Int) :
    d < add_business_days c d 1 := by
  rw [add_business_days_one]; exact next_business_day_gt c d

lemma add_business_days_one_biz (c : CalendarM) (d : Int) :
    is_business_day c (add_business_days c d 1) = true := by
  rw [add_business_days_one]; exact next_business_day_biz c d

/-! ## Orders (orders_parser.py) -/

inductive OrderStatus
  | UNSCHEDULED
  | ONTIME
  | DELAYED
deriving DecidableEq, Repr

/-- The `Enum` values `UNSCHEDULED = 0`, `ONTIME = 1`, `DELAYED = 2`, used by
`plan_full_order`'s `max(..., key=lambda s: s.value)`. -/
def OrderStatus.value : OrderStatus → Int
  | .UNSCHEDULED => 0
  | .ONTIME => 1
  | .DELAYED => 2

inductive Strategy
  | ASAP
  | JIT
deriving DecidableEq, Repr

/-- The `.name` attribute of a `Strategy` enum member: the string `"ASAP"` or
`"JIT"`. -/
def Strategy.pyName : Strategy → String
  | .ASAP => "ASAP"
  | .JIT => "JIT"

inductive FlaskSize
  | F105
  | F120
  | F143
deriving DecidableEq, Repr

/-- Python `order.strategy.name == Strategy.X` as written in
`planner_engine.py` lines 98, 100 and 132.  `order.strategy.name` is the `str`
`"ASAP"`/`"JIT"` while `Strategy.X` is an enum member; Python's `==` between a
`str` and an `Enum` member falls back to identity and is `False` for every
order and every member.  The comparison is embedded as the constant it
evaluates to. -/
def strategyNameEqEnum (_ : String) (_ : Strategy) : Bool := false

/-- Python `math.ceil(a / b)` for integers (float division then ceiling);
`-((-a).fdiv b)` is that ceiling for a positive divisor `b`.  (`b = 0` raises
in Python; the embedding is only used under `0 < b`.) -/
def ceilDiv (a b : Int) : Int := -((-a).fdiv b)

/-- The fields of `Order` that the planning engine reads.  `alloy`, `state`
and the mutable `status` bookkeeping field are never read by
`planner_engine.py` and are omitted.  Defaults in `Order.__init__` matter for
the synthetic sample order, which never sets `product_family` (default `''`)
nor `part_number`. -/
structure Order where
  order_id : String
  part_number : String
  product_family : String
  flask_size : FlaskSize
  parts_total : Int
  parts_per_mold : Int
  part_weight_ton : Rat
  due_date : Int
  cooling_days : Int
  finishing_days_nominal : Int
  finishing_days_min : Int
  strategy : Strategy
  is_new : Bool
  pattern_days : Int
  sample_molds : Int
  total_molds : Int
  produced_molds : Int
  scraped_molds : Int
deriving DecidableEq, Repr

/-- `Order.compute_estimated_duration`. -/
def compute_estimated_duration (o : Order) (max_molds_per_day : Int) : Int :=
  let total_molds := ceilDiv o.parts_total o.parts_per_mold
  let remaining_molds := total_molds - o.produced_molds - o.scraped_molds
  let molding_days := ceilDiv remaining_molds max_molds_per_day
  let molding_days := molding_days + (molding_days.fdiv 5) * 2
  molding_days + o.cooling_days + o.finishing_days_nominal

/-! ## Resource manager (resource_manager.py) -/

/-- `ResourceManager`: capacity limits plus the day-keyed usage counters
(`defaultdict`s, embedded as total functions with default 0).
`product_family_max_mix` is the dict parsed from the config (family →
fraction); association-list lookup models `in` / `[]` on it. -/
structure ResourceManager where
  flask_limits : FlaskSize → Int
  max_molds_per_day : Int
  max_pouring_tons_per_day : Rat
  max_patterns_per_day : Int
  max_staging_molds : Int
  max_same_part_molds_per_day : Int
  product_family_max_mix : List (String × Rat)
  flask_pool : Int → FlaskSize → Int
  daily_molds : Int → Int
  daily_pouring : Int → Rat
  pattern_slots : Int → Int
  staging_area : Int → Int
  same_part_molds : Int → String → Int
  product_family_usage : Int → String → Int

/-- `ResourceManager.__init__`: limits from the configuration, all usage
counters zero. -/
def ResourceManager.init (flask_limits : FlaskSize → Int) (mold_limit_per_day : Int)
    (pouring_limit_per_day : Rat) (pattern_limit_per_day : Int) (staging_limit : Int)
    (max_same_part_molds : Int) (product_family_max_mix : List (String × Rat)) :
    ResourceManager where
  flask_limits := flask_limits
  max_molds_per_day := mold_limit_per_day
  max_pouring_tons_per_day := pouring_limit_per_day
  max_patterns_per_day := pattern_limit_per_day
  max_staging_molds := staging_limit
  max_same_part_molds_per_day := max_same_part_molds
  product_family_max_mix := product_family_max_mix
  flask_pool := fun _ _ => 0
  daily_molds := fun _ => 0
  daily_pouring := fun _ => 0
  pattern_slots := fun _ => 0
  staging_area := fun _ => 0
  same_part_molds := fun _ _ => 0
  product_family_usage := fun _ _ => 0

/-- `reserve_flask`: adds `quantity` to every calendar day in
`[start_day, end_day]` inclusive (the source walks `current` from `start_day`
while `current <= end_day`). -/
def reserve_flask (rm : ResourceManager) (start_day end_day : Int) (fs : FlaskSize)
    (quantity : Int) : ResourceManager :=
  { rm with flask_pool := fun d s =>
      if start_day ≤ d ∧ d ≤ end_day ∧ s = fs then rm.flask_pool d s + quantity
      else rm.flask_pool d s }

def reserve_molds (rm : ResourceManager) (day : Int) (quantity : Int) : ResourceManager :=
  { rm with daily_molds := fun d =>
      if d = day then rm.daily_molds d + quantity else rm.daily_molds d }

def reserve_pouring (rm : ResourceManager) (day : Int) (tons : Rat) : ResourceManager :=
  { rm with daily_pouring := fun d =>
      if d = day then rm.daily_pouring d + tons else rm.daily_pouring d }

def can_schedule_pattern (rm : ResourceManager) (day : Int) : Bool :=
  decide (rm.pattern_slots day < rm.max_patterns_per_day)

def reserve_pattern (rm : ResourceManager) (day : Int) : ResourceManager :=
  { rm with pattern_slots := fun d =>
      if d = day then rm.pattern_slots d + 1 else rm.pattern_slots d }

def reserve_staging (rm : ResourceManager) (day : Int) (quantity : Int) : ResourceManager :=
  { rm with staging_area := fun d =>
      if d = day then rm.staging_area d + quantity else rm.staging_area d }

def reserve_same_part (rm : ResourceManager) (day : Int) (part_number : String)
    (quantity : Int) : ResourceManager :=
  { rm with same_part_molds := fun d p =>
      if d = day ∧ p = part_number then rm.same_part_molds d p + quantity
      else rm.same_part_molds d p }

/-- `compute_available_molds`: daily mold headroom clamped by the same-part
headroom.  Note that the source indexes `same_part_molds` by `order.order_id`,
not by `order.part_number`. -/
def compute_available_molds (rm : ResourceManager) (o : Order) (mold_day : Int) : Int :=
  min (rm.max_molds_per_day - rm.daily_molds mold_day)
    (rm.max_same_part_molds_per_day - rm.same_part_molds mold_day o.order_id)

/-- The floor of a rational, written executably (`num.fdiv den`); equal to
`Int.floor` (`ratFloor_eq_floor`), which does not reduce in the kernel. -/
def ratFloor (x : Rat) : Int := x.num.fdiv x.den

/-- `compute_available_pouring`: `floor((max_tons - used) / tons_per_mold)`.
(Python raises `ZeroDivisionError` when `tons_per_mold = 0`; in `Rat`, division
by zero gives 0, and the function is only relied upon under
`0 < tons_per_mold`.) -/
def compute_available_pouring (rm : ResourceManager) (o : Order) (pouring_day : Int) : Int :=
  let tons_per_mold : Rat := o.parts_per_mold * o.part_weight_ton
  ratFloor ((rm.max_pouring_tons_per_day - rm.daily_pouring pouring_day) / tons_per_mold)

/-- `compute_available_mix`: `float('inf')` (modelled as `none`) when the
order's family has no configured mix fraction, else
`floor(mix * max_molds_per_day - used)`. -/
def compute_available_mix (rm : ResourceManager) (o : Order) (day : Int) : Option Int :=
  match rm.product_family_max_mix.lookup o.product_family with
  | none => none
  | some mix =>
      some (ratFloor (mix * (rm.max_molds_per_day : Rat) -
        (rm.product_family_usage day o.product_family : Rat)))

/-- `reserve_mix`: records usage only when the family has a configured mix
fraction; otherwise the ledger is returned unchanged. -/
def reserve_mix (rm : ResourceManager) (day : Int) (family : String) (quantity : Int) :
    ResourceManager :=
  match rm.product_family_max_mix.lookup family with
  | some _ =>
      { rm with product_family_usage := fun d f =>
          if d = day ∧ f = family then rm.product_family_usage d f + quantity
          else rm.product_family_usage d f }
  | none => rm

/-! ## Planner engine (planner_engine.py) -/

/-- One entry of `try_schedule`'s `schedule["molding"]`:
`{"mold_day": ..., "qty": ..., "flask_release_day": ...}`. -/
structure MoldEntry where
  mold_day : Int
  qty : Int
  flask_release_day : Int
deriving DecidableEq, Repr

/-- The `schedule` defaultdict built by `try_schedule` (keys in insertion
order: molding, staging, pouring, shakeout, finishing). -/
structure TrySchedule where
  molding : List MoldEntry
  staging : List (Int × Int)
  pouring : List (Int × Rat)
  shakeout : List (Int × Int)
  finishing : List (Int × Int)
deriving DecidableEq, Repr

def emptyTrySchedule : TrySchedule :=
  { molding := [], staging := [], pouring := [], shakeout := [], finishing := [] }

/-- The phase chain of `try_schedule` lines 161-165: `staging = mold_day + 1`;
`pouring = staging` if it is a business day, else the next business day. -/
def pouringOf (c : CalendarM) (mold_day : Int) : Int :=
  if is_business_day c (mold_day + 1) then mold_day + 1
  else next_business_day c (mold_day + 1)

/-- Lines 167-171: `cooling_ends = pouring + cooling_days`; `shakeout` is
`cooling_ends` if it is a business day, else the next business day. -/
def shakeoutOf (c : CalendarM) (o : Order) (mold_day : Int) : Int :=
  if is_business_day c (pouringOf c mold_day + o.cooling_days) then
    pouringOf c mold_day + o.cooling_days
  else next_business_day c (pouringOf c mold_day + o.cooling_days)

/-- The list of calendar days from `a` to `b` inclusive (`while d <= ...`
loop of lines 177-180 building `flask_days`; empty when `b < a`). -/
def rangeDays (a b : Int) : List Int :=
  if b < a then [] else (List.range ((b - a).toNat + 1)).map (fun i => a + Int.ofNat i)

/-- `min` against a possibly-infinite (`none`) bound, as produced by
`float('inf')` seeds and `compute_available_mix`. -/
def iminO (a : Option Int) (b : Int) : Int :=
  match a with
  | none => b
  | some a => min a b

/-- Folding `min` starting from `float('inf')` over flask-availability values
(lines 183-187). -/
def someMin (a : Option Int) (x : Int) : Option Int :=
  match a with
  | none => some x
  | some a => some (min a x)

/-- Python `round(y)` on an exact value: round to the nearest integer, ties to
even (banker's rounding).  (Python actually rounds the nearest representable
double, which can differ from the exact rational at values whose binary
representation crosses a rounding boundary; every concrete value in this file
is far from such a boundary.) -/
def pyRound (y : Rat) : Int :=
  if 2 * (y.num - y.num.fdiv y.den * y.den) < (y.den : Int) then y.num.fdiv y.den
  else if 2 * (y.num - y.num.fdiv y.den * y.den) > (y.den : Int) then y.num.fdiv y.den + 1
  else if (y.num.fdiv y.den).emod 2 = 0 then y.num.fdiv y.den else y.num.fdiv y.den + 1

/-- Python `round(x, 3)`: scale by 1000, round to the nearest integer (ties
to even), scale back. -/
def round3 (x : Rat) : Rat := ((pyRound (x * 1000) : Int) : Rat) / 1000

/-- The flask-occupation days of a molding day: `[mold_day, flask_release_day]`
inclusive, where `flask_release_day = shakeout_day` (lines 173-180). -/
def flaskDaysOf (c : CalendarM) (o : Order) (mold_day : Int) : List Int :=
  rangeDays mold_day (shakeoutOf c o mold_day)

/-- Lines 183-187: fold `min` from `float('inf')` over
`limit - (committed + tentative)` for every flask day. -/
def maxMoldsFlasks (o : Order) (rm : ResourceManager) (temp_flask_pool : Int → FlaskSize → Int)
    (flask_days : List Int) : Option Int :=
  flask_days.foldl
    (fun acc d => someMin acc (rm.flask_limits o.flask_size -
      (rm.flask_pool d o.flask_size + temp_flask_pool d o.flask_size))) none

/-- Line 192: `available_today`, the minimum of the per-day mold headroom, the
pouring headroom (at this day's pouring day), the mix headroom, the flask
headroom over the occupation range (ledger plus tentative overlay), and the
remaining molds. -/
def availableToday (o : Order) (c : CalendarM) (rm : ResourceManager)
    (temp_flask_pool : Int → FlaskSize → Int) (mold_day molds_remaining : Int) : Int :=
  iminO (maxMoldsFlasks o rm temp_flask_pool (flaskDaysOf c o mold_day))
    (iminO (compute_available_mix rm o mold_day)
      (min (compute_available_molds rm o mold_day)
        (min (compute_available_pouring rm o (pouringOf c mold_day)) molds_remaining)))

/-- Lines 204-206: record the day's quantity in the tentative flask overlay on
every day of the occupation range. -/
def tempAfter (o : Order) (c : CalendarM) (temp_flask_pool : Int → FlaskSize → Int)
    (mold_day q : Int) : Int → FlaskSize → Int :=
  fun d s =>
    if mold_day ≤ d ∧ d ≤ shakeoutOf c o mold_day ∧ s = o.flask_size then
      temp_flask_pool d s + q
    else temp_flask_pool d s

/-- Lines 209-217: append the provisional entries for one molding day to the
four phase lists. -/
def schedAfter (o : Order) (c : CalendarM) (sch : TrySchedule) (mold_day q : Int) :
    TrySchedule :=
  { molding := sch.molding ++
      [{ mold_day := mold_day, qty := q, flask_release_day := shakeoutOf c o mold_day }]
    staging := sch.staging ++ [(mold_day + 1, q)]
    pouring := sch.pouring ++
      [(pouringOf c mold_day, round3 ((q : Rat) * (o.parts_per_mold * o.part_weight_ton)))]
    shakeout := sch.shakeout ++ [(shakeoutOf c o mold_day, q)]
    finishing := sch.finishing }

/-- The state-passing form of `try_schedule`'s `while molds_remaining > 0`
loop (lines 155-220).  Arguments after the fuel mirror the loop state:
`molds_remaining`, `mold_day`, `temp_flask_pool`, `daily_plan`, `schedule`.
Returns `none` when the loop does not finish within the fuel (the source loop
has no bound and can run forever). -/
def tsLoop (o : Order) (c : CalendarM) (rm : ResourceManager) :
    Nat → Int → Int → (Int → FlaskSize → Int) → List (Int × Int) → TrySchedule →
    Option (Int × List (Int × Int) × TrySchedule)
  | 0, _, _, _, _, _ => none
  | fuel + 1, molds_remaining, mold_day, temp_flask_pool, daily_plan, schedule =>
    if molds_remaining ≤ 0 then some (molds_remaining, daily_plan, schedule)
    else if ¬ is_business_day c mold_day then
      tsLoop o c rm fuel molds_remaining (add_business_days c mold_day 1)
        temp_flask_pool daily_plan schedule
    else
      if availableToday o c rm temp_flask_pool mold_day molds_remaining ≤ 0 then
        tsLoop o c rm fuel molds_remaining (add_business_days c mold_day 1)
          temp_flask_pool daily_plan schedule
      else
        tsLoop o c rm fuel
          (molds_remaining - availableToday o c rm temp_flask_pool mold_day molds_remaining)
          (add_business_days c mold_day 1)
          (tempAfter o c temp_flask_pool mold_day
            (availableToday o c rm temp_flask_pool mold_day molds_remaining))
          (daily_plan ++
            [(mold_day, availableToday o c rm temp_flask_pool mold_day molds_remaining)])
          (schedAfter o c schedule mold_day
            (availableToday o c rm temp_flask_pool mold_day molds_remaining))

/-- The descending `for days in range(nominal, minimum - 1, -1)` loop of lines
234-240: the first `days` whose finishing end fits the due date, else
(`for`/`else`) `finishing_days_min`. -/
def finChoiceAux (c : CalendarM) (finishing_start due minimum : Int) : Nat → Int → Int
  | 0, _ => minimum
  | k + 1, days =>
    if add_business_days c finishing_start days ≤ due then days
    else finChoiceAux c finishing_start due minimum k (days - 1)

/-- The finishing-window selection: `days` runs from `finishing_days_nominal`
down to `finishing_days_min` ((nominal - minimum + 1) iterations; an empty
range falls straight to the `else` clause, i.e. `minimum`). -/
def finishingChoice (c : CalendarM) (finishing_start due nominal minimum : Int) : Int :=
  finChoiceAux c finishing_start due minimum ((nominal - minimum + 1).toNat) nominal

/-- The parts-distribution loop of lines 249-254: `count` entries, the `i`-th
getting `daily_parts + 1` if `i < extra`; a non-business `current_day` is
advanced to the next business day before the entry is placed, and `current_day`
advances one business day after each entry. -/
def distFin (c : CalendarM) (daily_parts extra : Int) :
    Nat → Int → Int → List (Int × Int)
  | 0, _, _ => []
  | k + 1, i, current_day =>
    let placed := if ¬ is_business_day c current_day then
        add_business_days c current_day 1 else current_day
    let part_count := daily_parts + (if i < extra then 1 else 0)
    (placed, part_count) :: distFin c daily_parts extra k (i + 1) (add_business_days c placed 1)

/-- `try_schedule` (lines 145-256).  The outer `Option` is the fuel for the
unbounded molding loop; the inner `Option` is the source's
`(False, None)` / `(True, schedule)` result.  The tail (lines 226-254)
recomputes the phase chain of the *last* molding day with unconditional
`next_business_day` calls — unlike the per-day chain — and appends the
finishing entries. -/
def try_schedule (o : Order) (start_date : Int) (c : CalendarM) (rm : ResourceManager)
    (fuel : Nat) : Option (Option TrySchedule) :=
  match tsLoop o c rm fuel o.total_molds start_date (fun _ _ => 0) [] emptyTrySchedule with
  | none => none
  | some (molds_remaining, daily_plan, schedule) =>
    if molds_remaining > 0 ∨ daily_plan = [] then some none
    else
      match daily_plan.getLast? with
      | none => some none
      | some (last_mold_day, _) =>
        let staging_day := last_mold_day + 1
        let pouring_day := next_business_day c staging_day
        let cooling_ends := pouring_day + o.cooling_days
        let shakeout_day := next_business_day c cooling_ends
        let finishing_start := next_business_day c shakeout_day
        let days := finishingChoice c finishing_start o.due_date
          o.finishing_days_nominal o.finishing_days_min
        let daily_parts := o.parts_total.fdiv days
        let extra := o.parts_total.fmod days
        some (some { schedule with
          finishing := distFin c daily_parts extra days.toNat 0 finishing_start })

/-- `firm_schedule` (lines 261-297): commit the dry-run plan.  Iterates the
plan's phases in dict insertion order; molding entries reserve molds,
same-part (keyed by `order_id`), the flask range and the family mix; staging
and pouring entries call their reservation; shakeout and finishing are copied
with no reservation.  Returns `none` exactly when the source raises
(`schedule["finishing"][-1]` on an empty finishing list). -/
def firm_schedule (o : Order) (rm : ResourceManager) (plan : TrySchedule) :
    Option ((List (Int × Int) × List (Int × Int) × List (Int × Rat) ×
      List (Int × Int) × List (Int × Int)) × Int × ResourceManager) :=
  let rm1 := plan.molding.foldl (fun rm e =>
    reserve_mix
      (reserve_flask
        (reserve_same_part (reserve_molds rm e.mold_day e.qty) e.mold_day o.order_id e.qty)
        e.mold_day e.flask_release_day o.flask_size e.qty)
      e.mold_day o.product_family e.qty) rm
  let rm2 := plan.staging.foldl (fun rm p => reserve_staging rm p.1 p.2) rm1
  let rm3 := plan.pouring.foldl (fun rm p => reserve_pouring rm p.1 p.2) rm2
  match plan.finishing.getLast? with
  | none => none
  | some (end_date, _) =>
    some ((plan.molding.map (fun e => (e.mold_day, e.qty)), plan.staging, plan.pouring,
      plan.shakeout, plan.finishing), end_date, rm3)

/-- The `schedule` mapping of an emitted plan (phase → ordered entries).
Phases that a given path never writes are empty lists.  Pouring quantities
are tons; every other quantity is a count. -/
structure Schedule where
  pattern : List (Int × Int)
  molding : List (Int × Int)
  staging : List (Int × Int)
  pouring : List (Int × Rat)
  shakeout : List (Int × Int)
  finishing : List (Int × Int)
  sample_end : List (Int × Int)
deriving DecidableEq, Repr

def emptySchedule : Schedule :=
  { pattern := [], molding := [], staging := [], pouring := [], shakeout := [],
    finishing := [], sample_end := [] }

/-- The per-order result dict of `plan_order` / `plan_full_order`. -/
structure PlanResult where
  order_id : String
  status : OrderStatus
  start_date : Option Int
  end_date : Option Int
  schedule : Schedule
deriving DecidableEq, Repr

def unscheduledPlan (o : Order) : PlanResult :=
  { order_id := o.order_id, status := .UNSCHEDULED, start_date := none,
    end_date := none, schedule := emptySchedule }

/-- Lines 96-105 of `plan_order`: the start date and search direction.
Because `strategyNameEqEnum` is constantly `False`, an explicit `start_date`
always yields direction `-1`, and without one the JIT branch (line 100) is
unreachable, so every order starts at `today` with direction `+1`. -/
def startAndDirection (o : Order) (c : CalendarM) (today estimated_duration safety_days : Int)
    (start_date : Option Int) : Int × Int :=
  match start_date with
  | some sd => (sd, if strategyNameEqEnum o.strategy.pyName Strategy.ASAP then 1 else -1)
  | none =>
    if strategyNameEqEnum o.strategy.pyName Strategy.JIT then
      (add_business_days c o.due_date (-(estimated_duration + safety_days)), -1)
    else (today, 1)

/-- The `while attempt < max_search_days` search loop of `plan_order`
(lines 110-129).  The `Nat` argument counts the remaining attempts.  Outer
`none` propagates a `try_schedule` that ran out of fuel (or a commit on an
empty finishing list, where Python raises); `some none` is loop exhaustion. -/
def planOrderLoop (o : Order) (c : CalendarM) (rm : ResourceManager) (direction : Int)
    (fuel : Nat) : Nat → Int → Option (Option (PlanResult × ResourceManager))
  | 0, _ => some none
  | attempts + 1, start_date =>
    if ¬ is_business_day c start_date then
      planOrderLoop o c rm direction fuel attempts (add_business_days c start_date direction)
    else
      match try_schedule o start_date c rm fuel with
      | none => none
      | some none =>
        planOrderLoop o c rm direction fuel attempts (add_business_days c start_date direction)
      | some (some plan) =>
        match firm_schedule o rm plan with
        | none => none
        | some ((molding, staging, pouring, shakeout, finishing), end_date, rm') =>
          let status := if end_date ≤ o.due_date then OrderStatus.ONTIME
            else OrderStatus.DELAYED
          let sched : Schedule :=
            { emptySchedule with molding := molding, staging := staging,
                                 pouring := pouring, shakeout := shakeout,
                                 finishing := finishing }
          some (some ({ order_id := o.order_id, status := status,
                        start_date := some start_date, end_date := some end_date,
                        schedule := sched }, rm'))

/-- `plan_order` (lines 87-143), with an explicit bound on the recursion depth
of the JIT→ASAP retry (lines 131-135).  In the source the retry can only
recurse while `order.strategy.name == Strategy.JIT` holds, and that guard —
`strategyNameEqEnum` — is constantly `False`, so the recursive branch is
unreachable and a depth of 1 is exact; the depth-0 value is never produced.
Returns the plan dict, the ledger, and the order object (whose `strategy`
field the dead fallback would have mutated to ASAP). -/
def planOrderGo (c : CalendarM) (today : Int) :
    Nat → Order → ResourceManager → Int → Int → Option Int → Nat →
    Option (PlanResult × ResourceManager × Order)
  | 0, o, rm, _, _, _, _ => some (unscheduledPlan o, rm, o)
  | retries + 1, o, rm, max_search_days, safety_days, start_date?, fuel =>
    let estimated_duration := compute_estimated_duration o rm.max_molds_per_day
    let sd := startAndDirection o c today estimated_duration safety_days start_date?
    match planOrderLoop o c rm sd.2 fuel max_search_days.toNat sd.1 with
    | none => none
    | some (some r) => some (r.1, r.2, o)
    | some none =>
      if strategyNameEqEnum o.strategy.pyName Strategy.JIT then
        planOrderGo c today retries { o with strategy := Strategy.ASAP } rm
          max_search_days 0 none fuel
      else some (unscheduledPlan o, rm, o)

/-- `plan_order` with the source's call signature. -/
def plan_order (o : Order) (c : CalendarM) (rm : ResourceManager) (today : Int)
    (max_search_days safety_days : Int) (start_date? : Option Int) (fuel : Nat) :
    Option (PlanResult × ResourceManager × Order) :=
  planOrderGo c today 1 o rm max_search_days safety_days start_date? fuel

/-- The pattern-manufacturing loop of `plan_full_order` (lines 25-32): on each
day that is a business day with a free pattern slot, reserve it and append
`(day, 1)`; always advance to the next business day.  Unbounded in the source
(`can_schedule_pattern` can be `False` forever), hence fueled. -/
def patternLoop (c : CalendarM) :
    Nat → ResourceManager → Int → Int → List (Int × Int) →
    Option (List (Int × Int) × ResourceManager)
  | 0, rm, remaining, _, acc => if remaining ≤ 0 then some (acc, rm) else none
  | fuel + 1, rm, remaining, ptr, acc =>
    if remaining ≤ 0 then some (acc, rm)
    else if is_business_day c ptr ∧ can_schedule_pattern rm ptr then
      patternLoop c fuel (reserve_pattern rm ptr) (remaining - 1)
        (next_business_day c ptr) (acc ++ [(ptr, 1)])
    else patternLoop c fuel rm remaining (next_business_day c ptr) acc

/-- The synthetic sample order of `plan_full_order` lines 36-50.  Fields not
assigned there keep the `Order.__init__` defaults; in particular
`product_family` stays `''` and `part_number` is never set (no engine path
reads the sample's `part_number`). -/
def sampleOrderOf (o : Order) : Order :=
  { order_id := o.order_id ++ "-SAMPLE"
    part_number := ""
    product_family := ""
    flask_size := o.flask_size
    parts_total := o.sample_molds * o.parts_per_mold
    parts_per_mold := o.parts_per_mold
    part_weight_ton := o.part_weight_ton
    due_date := o.due_date
    cooling_days := o.cooling_days
    finishing_days_nominal := o.finishing_days_min
    finishing_days_min := o.finishing_days_min
    strategy := Strategy.ASAP
    is_new := false
    pattern_days := 0
    sample_molds := 0
    total_molds := o.sample_molds
    produced_molds := 0
    scraped_molds := 0 }

/-- Python `max(sample_status, main_status, key=lambda s: s.value)`: the first
argument wins ties. -/
def statusMax (a b : OrderStatus) : OrderStatus :=
  if b.value > a.value then b else a

/-- `plan_full_order` (lines 9-84).  Recurrent orders delegate to
`plan_order`; new orders run pattern manufacturing, the sample order (ASAP,
`safety_days = 0`, explicit start 3 business days after the pattern end), the
main order (explicit start 3 business days after the sample end, with
`parts_total` and `total_molds` reduced by the sample), and consolidate.
`none` models fuel exhaustion or a Python exception (`pattern[-1]` with
`pattern_days <= 0`). -/
def plan_full_order (o : Order) (c : CalendarM) (rm : ResourceManager) (today : Int)
    (max_search_days safety_days days_after_pattern days_after_sample : Int)
    (fuel : Nat) : Option (PlanResult × ResourceManager) :=
  if ¬ o.is_new then
    match plan_order o c rm today max_search_days safety_days none fuel with
    | none => none
    | some (r, rm', _) => some (r, rm')
  else
    match patternLoop c fuel rm o.pattern_days today [] with
    | none => none
    | some (patternEntries, rm1) =>
      match patternEntries.getLast? with
      | none => none
      | some (pattern_end, _) =>
        let sample_order := sampleOrderOf o
        let sample_start := add_business_days c pattern_end days_after_pattern
        match plan_order sample_order c rm1 today max_search_days 0 (some sample_start) fuel with
        | none => none
        | some (sample_plan, rm2, _) =>
          if sample_plan.status = OrderStatus.UNSCHEDULED then
            some ({ order_id := o.order_id, status := .UNSCHEDULED, start_date := none,
                    end_date := none,
                    schedule := { emptySchedule with pattern := patternEntries } }, rm2)
          else
            match sample_plan.end_date with
            | none => none
            | some sample_end =>
              let produced := sample_order.parts_total
              let o' := { o with
                          parts_total := o.parts_total - produced,
                          total_molds := ceilDiv (o.parts_total - produced) o.parts_per_mold }
              let main_start := add_business_days c sample_end days_after_sample
              match plan_order o' c rm2 today max_search_days safety_days
                  (some main_start) fuel with
              | none => none
              | some (main_plan, rm3, _) =>
                if main_plan.status = OrderStatus.UNSCHEDULED then
                  some ({ order_id := o.order_id, status := .UNSCHEDULED,
                          start_date := none, end_date := none,
                          schedule := { emptySchedule with
                                        pattern := patternEntries,
                                        sample_end := [(sample_end, 1)] } }, rm3)
                else
                  match main_plan.end_date, patternEntries.head? with
                  | some main_end, some firstPattern =>
                    let merged : Schedule :=
                      { pattern := patternEntries ++ sample_plan.schedule.pattern ++
                          main_plan.schedule.pattern
                        molding := sample_plan.schedule.molding ++
                          main_plan.schedule.molding
                        staging := sample_plan.schedule.staging ++
                          main_plan.schedule.staging
                        pouring := sample_plan.schedule.pouring ++
                          main_plan.schedule.pouring
                        shakeout := sample_plan.schedule.shakeout ++
                          main_plan.schedule.shakeout
                        finishing := sample_plan.schedule.finishing ++
                          main_plan.schedule.finishing
                        sample_end := [(sample_end, 1)] }
                    some ({ order_id := o.order_id,
                            status := statusMax sample_plan.status main_plan.status,
                            start_date := some firstPattern.1,
                            end_date := some (max sample_end main_end),
                            schedule := merged }, rm3)
                  | _, _ => none

/-! ## Batch orchestrator (main.py) -/

/-- The sort key of `main.py` lines 33-37:
`((due_date - timedelta(est_duration)) - today).days`, i.e. the order's
slack. -/
def slackKey (rm : ResourceManager) (today : Int) (o : Order) : Int :=
  (o.due_date - compute_estimated_duration o rm.max_molds_per_day) - today

/-- Stable insertion of `x` into a key-sorted list of elements that all come
later than `x` in the input: `x` goes before the first element whose key is
not strictly smaller, so equal-keyed elements keep their input order. -/
def insSorted (key : Order → Int) (x : Order) : List Order → List Order
  | [] => [x]
  | y :: ys => if key y < key x then y :: insSorted key x ys else x :: y :: ys

/-- Stable sort by key, processing from the right; models Python's stable
`list.sort(key=...)` (equal-keyed orders keep their input order). -/
def sortByKey (key : Order → Int) : List Order → List Order
  | [] => []
  | x :: xs => insSorted key x (sortByKey key xs)

/-- The per-order loop of `main.py` lines 46-57, threading the shared ledger
and collecting `full_plan[order_id]` entries in order. -/
def runPlannerGo (c : CalendarM) (today : Int) (fuel : Nat) :
    List Order → ResourceManager → List (String × PlanResult) →
    Option (List (String × PlanResult) × ResourceManager)
  | [], rm, acc => some (acc, rm)
  | o :: os, rm, acc =>
    match plan_full_order o c rm today 30 3 3 3 fuel with
    | none => none
    | some (plan, rm') => runPlannerGo c today fuel os rm' (acc ++ [(o.order_id, plan)])

/-- `main.py` lines 21-71: sort the orders by slack, plan each with the
default parameters, and collect the full plan keyed by order id. -/
def runPlanner (orders : List Order) (c : CalendarM) (rm : ResourceManager) (today : Int)
    (fuel : Nat) : Option (List (String × PlanResult) × ResourceManager) :=
  runPlannerGo c today fuel (sortByKey (slackKey rm today) orders) rm []

/-! ## Test fixtures: concrete calendars, configurations and orders used by
witnesses and counterexamples. -/

/-- A calendar with no holidays; day 0 is a Monday. -/
def calNoHolidays : CalendarM := ⟨[]⟩

/-- A small recurrent ASAP order: 2 molds, 1 part per mold, 1 t per part,
due day 30. -/
def orderA1 : Order :=
  { order_id := "A1", part_number := "PA", product_family := "X", flask_size := .F105,
    parts_total := 2, parts_per_mold := 1, part_weight_ton := 1, due_date := 30,
    cooling_days := 0, finishing_days_nominal := 1, finishing_days_min := 1,
    strategy := .ASAP, is_new := false, pattern_days := 0, sample_molds := 0,
    total_molds := 2, produced_molds := 0, scraped_molds := 0 }

/-- Generous resources except `max_staging_molds = 1`. -/
def rmStaging : ResourceManager := ResourceManager.init (fun _ => 10) 10 100 5 1 10 []

/-- Resources with `max_pouring_tons_per_day = 0.0006`. -/
def rmPouring : ResourceManager := ResourceManager.init (fun _ => 10) 10 (3/5000) 5 100 10 []

/-- An order whose tons-per-mold equals the 0.0006 pouring cap exactly. -/
def orderB1 : Order :=
  { order_id := "B1", part_number := "PB", product_family := "X", flask_size := .F105,
    parts_total := 1, parts_per_mold := 1, part_weight_ton := 3/5000, due_date := 30,
    cooling_days := 0, finishing_days_nominal := 1, finishing_days_min := 1,
    strategy := .ASAP, is_new := false, pattern_days := 0, sample_molds := 0,
    total_molds := 1, produced_molds := 0, scraped_molds := 0 }

/-- Resources with `max_same_part_molds_per_day = 1`. -/
def rmSamePart : ResourceManager := ResourceManager.init (fun _ => 10) 10 100 5 100 1 []

/-- Two one-mold orders sharing part number `"P"`. -/
def orderC1 : Order :=
  { order_id := "C1", part_number := "P", product_family := "X", flask_size := .F105,
    parts_total := 1, parts_per_mold := 1, part_weight_ton := 1, due_date := 30,
    cooling_days := 0, finishing_days_nominal := 1, finishing_days_min := 1,
    strategy := .ASAP, is_new := false, pattern_days := 0, sample_molds := 0,
    total_molds := 1, produced_molds := 0, scraped_molds := 0 }

def orderC2 : Order := { orderC1 with order_id := "C2" }

/-- Resources with a 50% mix cap for family `"F"` (so at most
`floor(0.5 * 10) = 5` family-F molds per day). -/
def rmFamily : ResourceManager :=
  ResourceManager.init (fun _ => 100) 10 1000 5 1000 10 [("F", 1/2)]

/-- A new order in family `"F"` whose sample is 6 molds. -/
def orderD1 : Order :=
  { order_id := "D1", part_number := "PD", product_family := "F", flask_size := .F105,
    parts_total := 20, parts_per_mold := 1, part_weight_ton := 1/100, due_date := 60,
    cooling_days := 0, finishing_days_nominal := 2, finishing_days_min := 1,
    strategy := .ASAP, is_new := true, pattern_days := 1, sample_molds := 6,
    total_molds := 20, produced_molds := 0, scraped_molds := 0 }

/-- A JIT order with `parts_total = 0` (so `try_schedule` is infeasible on
every start date and the search loop exhausts). -/
def orderJ0 : Order :=
  { order_id := "J0", part_number := "PJ", product_family := "X", flask_size := .F105,
    parts_total := 0, parts_per_mold := 1, part_weight_ton := 1, due_date := 20,
    cooling_days := 0, finishing_days_nominal := 1, finishing_days_min := 1,
    strategy := .JIT, is_new := false, pattern_days := 0, sample_molds := 0,
    total_molds := 0, produced_molds := 0, scraped_molds := 0 }

/-- Generous resources for simple witnesses. -/
def rmWide : ResourceManager := ResourceManager.init (fun _ => 10) 10 100 5 100 10 []

/-- Resources whose `flask_limits` are all 0: flask availability is 0 on every
day, so `try_schedule`'s molding loop never makes progress. -/
def rmNoFlasks : ResourceManager := ResourceManager.init (fun _ => 0) 10 100 5 100 10 []

/-- A one-mold recurrent ASAP order for the starvation scenario. -/
def orderF1 : Order :=
  { order_id := "F1", part_number := "PF", product_family := "X", flask_size := .F105,
    parts_total := 1, parts_per_mold := 1, part_weight_ton := 1, due_date := 30,
    cooling_days := 0, finishing_days_nominal := 1, finishing_days_min := 1,
    strategy := .ASAP, is_new := false, pattern_days := 0, sample_molds := 0,
    total_molds := 1, produced_molds := 0, scraped_molds := 0 }

/-- A new order for the conservation witness: 1 pattern day, a 1-mold sample,
10 parts at 2 per mold (`total_molds = ceilDiv 10 2 = 5`). -/
def orderE1 : Order :=
  { order_id := "E1", part_number := "PE", product_family := "X", flask_size := .F105,
    parts_total := 10, parts_per_mold := 2, part_weight_ton := 1/100, due_date := 60,
    cooling_days := 0, finishing_days_nominal := 1, finishing_days_min := 1,
    strategy := .ASAP, is_new := true, pattern_days := 1, sample_molds := 1,
    total_molds := 5, produced_molds := 0, scraped_molds := 0 }

/-- The full plan of `orderE1` on the empty ledger, and its two components. -/
def c8run : Option (PlanResult × ResourceManager) :=
  plan_full_order orderE1 calNoHolidays rmWide 0 30 3 3 3 40

def c8res : PlanResult := (c8run.getD (unscheduledPlan orderE1, rmWide)).1

def c8rm : ResourceManager := (c8run.getD (unscheduledPlan orderE1, rmWide)).2

/-! ## Claims C1, C2: start date, direction, and the JIT fallback -/

/-- C1.  The claim says: with an explicit `start_date` the direction is `+1`
for ASAP and `-1` for JIT, and a JIT order without a start date begins at
`add_business_days(due_date, -(estimated_duration + safety_days))` with
direction `-1`.  The code disagrees: `order.strategy.name == Strategy.X`
compares a `str` with an enum member and is always `False`
(`strategyNameEqEnum`), so an explicit start date always yields direction
`-1` — also for ASAP orders — and an order without one always starts at
`today` with direction `+1` — also for JIT orders, whose dedicated branch is
unreachable. -/
theorem claim_C1 :
    ∀ (o : Order) (c : CalendarM) (today estimated_duration safety_days sd : Int),
      startAndDirection o c today estimated_duration safety_days (some sd) = (sd, -1) ∧
      startAndDirection o c today estimated_duration safety_days none = (today, 1) := by
  intro o c today ed safety sd
  simp [startAndDirection, strategyNameEqEnum]

/-- C2.  The claim says a JIT order whose search loop exhausts retries once as
ASAP (start `today`, `safety_days = 0`) before returning UNSCHEDULED.  In the
code the fallback guard `order.strategy.name == Strategy.JIT` is always
`False`, so no retry ever happens: the JIT order `orderJ0` (whose dry-run is
infeasible on all 30 attempts because `total_molds = 0`) is returned
UNSCHEDULED directly, with its strategy still `JIT` — the fallback would have
mutated it to ASAP. -/
theorem claim_C2 :
    plan_order orderJ0 calNoHolidays rmWide 0 30 3 none 5 =
      some (unscheduledPlan orderJ0, rmWide, orderJ0) ∧
    orderJ0.strategy = Strategy.JIT := by
  exact ⟨rfl, rfl⟩

/-! ## Claim C9: determinism -/

/-- C9.  The planner is a pure function of (orders, calendar, resources,
today): two runs on inputs that are equal component-wise produce the identical
`full_plan`, order by order and entry by entry. -/
theorem claim_C9 :
    ∀ (orders₁ orders₂ : List Order) (c₁ c₂ : CalendarM) (rm₁ rm₂ : ResourceManager)
      (t₁ t₂ : Int) (fuel₁ fuel₂ : Nat),
      orders₁ = orders₂ → c₁ = c₂ → rm₁ = rm₂ → t₁ = t₂ → fuel₁ = fuel₂ →
      runPlanner orders₁ c₁ rm₁ t₁ fuel₁ = runPlanner orders₂ c₂ rm₂ t₂ fuel₂ := by
  intro _ _ _ _ _ _ _ _ _ _ h1 h2 h3 h4 h5
  rw [h1, h2, h3, h4, h5]

/-- Witness for C9 at concrete inputs. -/
theorem claim_C9_witness :
    runPlanner [orderA1] calNoHolidays rmStaging 0 100 =
      runPlanner [orderA1] calNoHolidays rmStaging 0 100 :=
  claim_C9 [orderA1] [orderA1] calNoHolidays calNoHolidays rmStaging rmStaging 0 0 100 100
    rfl rfl rfl rfl rfl

/-! ## Claim C10: reserve_mix frame property -/

/-- C10.  `reserve_mix` leaves the ledger entirely unchanged when the family
has no configured mix fraction, and `compute_available_mix` reports unlimited
(`float('inf')`, embedded as `none`) availability for such families. -/
theorem claim_C10 (rm : ResourceManager) (day : Int) (family : String) (q : Int)
    (o : Order) (ho : o.product_family = family)
    (h : rm.product_family_max_mix.lookup family = none) :
    reserve_mix rm day family q = rm ∧ compute_available_mix rm o day = none := by
  constructor
  · unfold reserve_mix
    rw [h]
  · unfold compute_available_mix
    rw [ho, h]

/-- Witness for C10: family `"Z"` is absent from `rmWide`'s (empty) mix
configuration. -/
theorem claim_C10_witness :
    reserve_mix rmWide 0 "Z" 5 = rmWide ∧
    compute_available_mix rmWide { orderA1 with product_family := "Z" } 0 = none :=
  claim_C10 rmWide 0 "Z" 5 { orderA1 with product_family := "Z" } rfl rfl

/-! ## Phase-chain and availability lemmas -/

lemma pouringOf_ge (c : CalendarM) (m : Int) : m + 1 ≤ pouringOf c m := by
  unfold pouringOf
  split
  · exact le_rfl
  · have := next_business_day_gt c (m + 1); omega

lemma pouringOf_biz (c : CalendarM) (m : Int) :
    is_business_day c (pouringOf c m) = true := by
  unfold pouringOf
  split
  · assumption
  · exact next_business_day_biz c (m + 1)

/-- `pouringOf c m` is the least business day `≥ m + 1`. -/
lemma pouringOf_le (c : CalendarM) {m e : Int} (h1 : m + 1 ≤ e)
    (h2 : is_business_day c e = true) : pouringOf c m ≤ e := by
  unfold pouringOf
  split
  · omega
  · rcases eq_or_lt_of_le h1 with rfl | h
    · simp_all
    · exact next_business_day_le c (by omega) h2

lemma shakeoutOf_ge (c : CalendarM) (o : Order) (m : Int) (h : 0 ≤ o.cooling_days) :
    m + 1 ≤ shakeoutOf c o m := by
  have h1 := pouringOf_ge c m
  unfold shakeoutOf
  split
  · omega
  · have := next_business_day_gt c (pouringOf c m + o.cooling_days); omega

lemma shakeoutOf_biz (c : CalendarM) (o : Order) (m : Int) :
    is_business_day c (shakeoutOf c o m) = true := by
  unfold shakeoutOf
  split
  · assumption
  · exact next_business_day_biz c _

lemma mem_rangeDays {a b d : Int} : d ∈ rangeDays a b ↔ a ≤ d ∧ d ≤ b := by
  unfold rangeDays
  split
  · rename_i hba
    simp only [List.not_mem_nil, false_iff]
    omega
  · rename_i hba
    rw [List.mem_map]
    constructor
    · rintro ⟨i, hi, rfl⟩
      rw [List.mem_range] at hi
      simp only [Int.ofNat_eq_natCast]
      omega
    · rintro ⟨h1, h2⟩
      refine ⟨(d - a).toNat, ?_, ?_⟩
      · rw [List.mem_range]
        omega
      · simp only [Int.ofNat_eq_natCast]
        omega

lemma iminO_le_right (a : Option Int) (b : Int) : iminO a b ≤ b := by
  cases a with
  | none => exact le_rfl
  | some a => exact min_le_right a b

lemma foldl_someMin_le (g : Int → Int) :
    ∀ (l : List Int) (acc : Option Int) (v : Int),
      l.foldl (fun a d => someMin a (g d)) acc = some v →
      (∀ d ∈ l, v ≤ g d) ∧ (∀ a, acc = some a → v ≤ a) := by
  intro l
  induction l with
  | nil =>
    intro acc v h
    simp only [List.foldl_nil] at h
    exact ⟨by simp, fun a ha => by rw [ha] at h; injection h with h; omega⟩
  | cons x xs ih =>
    intro acc v h
    simp only [List.foldl_cons] at h
    obtain ⟨h1, h2⟩ := ih (someMin acc (g x)) v h
    constructor
    · intro d hd
      rcases List.mem_cons.mp hd with rfl | hd
      · cases acc with
        | none => exact h2 (g d) rfl
        | some a => exact le_trans (h2 (min a (g d)) rfl) (min_le_right a (g d))
      · exact h1 d hd
    · intro a ha
      subst ha
      exact le_trans (h2 (min a (g x)) rfl) (min_le_left a (g x))

lemma foldl_someMin_isSome (g : Int → Int) :
    ∀ (l : List Int) (acc : Option Int), (acc.isSome = true ∨ l ≠ []) →
      (l.foldl (fun a d => someMin a (g d)) acc).isSome = true := by
  intro l
  induction l with
  | nil =>
    intro acc h
    rcases h with h | h
    · simpa using h
    · simp at h
  | cons x xs ih =>
    intro acc _
    simp only [List.foldl_cons]
    apply ih
    left
    cases acc <;> rfl

lemma ratFloor_eq_floor (x : Rat) : ratFloor x = Int.floor x := by
  rw [ratFloor, Rat.floor_def, Int.fdiv_eq_ediv _ (by positivity)]

/-- `available_today` is at most the flask headroom (ledger + tentative
overlay) on every day of the occupation range. -/
lemma availableToday_le_flask (o : Order) (c : CalendarM) (rm : ResourceManager)
    (temp : Int → FlaskSize → Int) (mold_day rem : Int) {d : Int}
    (hd : d ∈ flaskDaysOf c o mold_day) :
    availableToday o c rm temp mold_day rem ≤
      rm.flask_limits o.flask_size - (rm.flask_pool d o.flask_size + temp d o.flask_size) := by
  have hne : flaskDaysOf c o mold_day ≠ [] := by
    intro h; rw [h] at hd; exact List.not_mem_nil d hd
  have hsome : (maxMoldsFlasks o rm temp (flaskDaysOf c o mold_day)).isSome = true :=
    foldl_someMin_isSome
      (fun d => rm.flask_limits o.flask_size - (rm.flask_pool d o.flask_size + temp d o.flask_size))
      (flaskDaysOf c o mold_day) none (Or.inr hne)
  obtain ⟨v, hv⟩ := Option.isSome_iff_exists.mp hsome
  have hvle := (foldl_someMin_le
    (fun d => rm.flask_limits o.flask_size - (rm.flask_pool d o.flask_size + temp d o.flask_size))
    (flaskDaysOf c o mold_day) none v hv).1 d hd
  unfold availableToday
  rw [hv]
  exact le_trans (min_le_left v _) hvle

lemma availableToday_le_molds (o : Order) (c : CalendarM) (rm : ResourceManager)
    (temp : Int → FlaskSize → Int) (mold_day rem : Int) :
    availableToday o c rm temp mold_day rem ≤ compute_available_molds rm o mold_day := by
  unfold availableToday
  refine le_trans (iminO_le_right _ _) (le_trans (iminO_le_right _ _) (min_le_left _ _))

lemma availableToday_le_pouring (o : Order) (c : CalendarM) (rm : ResourceManager)
    (temp : Int → FlaskSize → Int) (mold_day rem : Int) :
    availableToday o c rm temp mold_day rem ≤
      compute_available_pouring rm o (pouringOf c mold_day) := by
  unfold availableToday
  exact le_trans (iminO_le_right _ _) (le_trans (iminO_le_right _ _)
    (le_trans (min_le_right _ _) (min_le_left _ _)))

lemma availableToday_le_rem (o : Order) (c : CalendarM) (rm : ResourceManager)
    (temp : Int → FlaskSize → Int) (mold_day rem : Int) :
    availableToday o c rm temp mold_day rem ≤ rem := by
  unfold availableToday
  exact le_trans (iminO_le_right _ _) (le_trans (iminO_le_right _ _)
    (le_trans (min_le_right _ _) (min_le_right _ _)))

lemma availableToday_le_mix (o : Order) (c : CalendarM) (rm : ResourceManager)
    (temp : Int → FlaskSize → Int) (mold_day rem : Int) {m : Int}
    (hm : compute_available_mix rm o mold_day = some m) :
    availableToday o c rm temp mold_day rem ≤ m := by
  unfold availableToday
  rw [hm]
  refine le_trans (iminO_le_right _ _) ?_
  exact min_le_left _ _

/-- One unfolding of the `try_schedule` molding loop. -/
lemma tsLoop_step (o : Order) (c : CalendarM) (rm : ResourceManager) (n : Nat)
    (rem day : Int) (temp : Int → FlaskSize → Int) (dp : List (Int × Int))
    (sch : TrySchedule) :
    tsLoop o c rm (n + 1) rem day temp dp sch =
      if rem ≤ 0 then some (rem, dp, sch)
      else if ¬ is_business_day c day then
        tsLoop o c rm n rem (add_business_days c day 1) temp dp sch
      else if availableToday o c rm temp day rem ≤ 0 then
        tsLoop o c rm n rem (add_business_days c day 1) temp dp sch
      else
        tsLoop o c rm n (rem - availableToday o c rm temp day rem)
          (add_business_days c day 1) (tempAfter o c temp day (availableToday o c rm temp day rem))
          (dp ++ [(day, availableToday o c rm temp day rem)])
          (schedAfter o c sch day (availableToday o c rm temp day rem)) := rfl

/-! ## Claim C3: (non-)termination of try_schedule -/

/-- With every flask limit 0, `available_today` is never positive for
`orderF1`, so the `while molds_remaining > 0` loop of `try_schedule` runs
forever: no fuel suffices. -/
lemma tsLoop_starved :
    ∀ (fuel : Nat) (rem day : Int) (temp : Int → FlaskSize → Int)
      (dp : List (Int × Int)) (sch : TrySchedule),
      1 ≤ rem → (∀ d s, 0 ≤ temp d s) →
      tsLoop orderF1 calNoHolidays rmNoFlasks fuel rem day temp dp sch = none := by
  intro fuel
  induction fuel with
  | zero => intros; rfl
  | succ n ih =>
    intro rem day temp dp sch h ht
    rw [tsLoop_step, if_neg (by omega)]
    cases hb : is_business_day calNoHolidays day with
    | false =>
      rw [if_pos (by simp [hb])]
      exact ih rem _ temp dp sch h ht
    | true =>
      rw [if_neg (by simp [hb])]
      have hav : availableToday orderF1 calNoHolidays rmNoFlasks temp day rem ≤ 0 := by
        have hd : day ∈ flaskDaysOf calNoHolidays orderF1 day := by
          unfold flaskDaysOf
          rw [mem_rangeDays]
          have := shakeoutOf_ge calNoHolidays orderF1 day (by decide)
          omega
        have hle := availableToday_le_flask orderF1 calNoHolidays rmNoFlasks temp day rem hd
        rw [show rmNoFlasks.flask_limits orderF1.flask_size = 0 from rfl,
          show rmNoFlasks.flask_pool day orderF1.flask_size = 0 from rfl,
          show orderF1.flask_size = FlaskSize.F105 from rfl] at hle
        have h2 := ht day FlaskSize.F105
        omega
      rw [if_pos hav]
      exact ih rem _ temp dp sch h ht

/-- C3.  The claim says `plan_order` terminates on every input, with each
dry-run (`try_schedule`) terminating for every order and ledger state,
including configurations where some per-day availability is permanently zero.
The code disagrees: `try_schedule`'s `while molds_remaining > 0` loop has no
bound, and with `flask_limits[F105] = 0` (order `orderF1`, one mold) the
available quantity is 0 on every day, so the loop only ever advances
`mold_day` — `try_schedule` returns within no fuel bound, and the first
search iteration of `plan_order` never returns. -/
theorem claim_C3 :
    (∀ fuel : Nat, try_schedule orderF1 0 calNoHolidays rmNoFlasks fuel = none) ∧
    (∀ fuel : Nat, plan_order orderF1 calNoHolidays rmNoFlasks 0 30 3 none fuel = none) := by
  have hts : ∀ fuel : Nat, try_schedule orderF1 0 calNoHolidays rmNoFlasks fuel = none := by
    intro fuel
    unfold try_schedule
    rw [tsLoop_starved fuel orderF1.total_molds 0 (fun _ _ => 0) [] emptyTrySchedule
      (by decide) (fun _ _ => le_rfl)]
  refine ⟨hts, ?_⟩
  intro fuel
  have hloop : planOrderLoop orderF1 calNoHolidays rmNoFlasks 1 fuel 30 0 = none := by
    rw [show (30 : Nat) = 29 + 1 from rfl]
    rw [planOrderLoop]
    rw [if_neg (by decide)]
    rw [hts fuel]
  unfold plan_order planOrderGo
  simp only [startAndDirection, strategyNameEqEnum, Bool.false_eq_true, if_false]
  rw [show Int.toNat 30 = (30 : Nat) from rfl, hloop]

/-! ## Claim C7: finishing window selection and parts distribution -/

/-- The descending loop either falls through to `minimum` or stops at a
fitting day count within the tried window. -/
lemma finChoiceAux_cases (c : CalendarM) (fs due minimum : Int) :
    ∀ (k : Nat) (days : Int),
      finChoiceAux c fs due minimum k days = minimum ∨
      (days - k < finChoiceAux c fs due minimum k days ∧
       finChoiceAux c fs due minimum k days ≤ days ∧
       add_business_days c fs (finChoiceAux c fs due minimum k days) ≤ due) := by
  intro k
  induction k with
  | zero => intro days; left; rfl
  | succ n ih =>
    intro days
    rw [finChoiceAux]
    split
    · right
      refine ⟨by push_cast; omega, le_rfl, by assumption⟩
    · rcases ih (days - 1) with h | ⟨ha, hb, hc⟩
      · left; exact h
      · right
        refine ⟨by push_cast at ha ⊢; omega, by omega, hc⟩

/-- Every fitting day count in the tried window is at most the loop's
result: the loop returns the largest fitting count. -/
lemma finChoiceAux_maximal (c : CalendarM) (fs due minimum : Int) :
    ∀ (k : Nat) (days e : Int),
      days - k < e → e ≤ days → add_business_days c fs e ≤ due →
      e ≤ finChoiceAux c fs due minimum k days := by
  intro k
  induction k with
  | zero => intro days e h1 h2 _; omega
  | succ n ih =>
    intro days e h1 h2 h3
    rw [finChoiceAux]
    split
    · exact h2
    · rename_i hnf
      have hne : e ≠ days := by
        rintro rfl; exact hnf h3
      refine ih (days - 1) e (by push_cast at h1 ⊢; omega) (by omega) h3

def sumSnd (l : List (Int × Int)) : Int := (l.map Prod.snd).sum

lemma distFin_length (c : CalendarM) (base extra : Int) :
    ∀ (n : Nat) (i cur : Int), (distFin c base extra n i cur).length = n := by
  intro n
  induction n with
  | zero => intro i cur; rfl
  | succ m ih => intro i cur; simp [distFin, ih]

/-- The quantities produced by the distribution loop: position `j` (0-based,
counted from loop counter `i`) gets `base + 1` exactly when `i + j < extra`. -/
lemma distFin_quantities (c : CalendarM) (base extra : Int) :
    ∀ (n : Nat) (i cur : Int),
      (distFin c base extra n i cur).map Prod.snd =
        (List.range n).map
          (fun j : Nat => base + if i + (j : Int) < extra then 1 else 0) := by
  intro n
  induction n with
  | zero => intro i cur; rfl
  | succ m ih =>
    intro i cur
    rw [List.range_succ_eq_map, List.map_cons, List.map_map]
    simp only [distFin, List.map_cons]
    refine List.cons_eq_cons.mpr ⟨by simp, ?_⟩
    rw [ih (i + 1)]
    apply List.map_congr_left
    intro j _
    simp only [Function.comp_apply]
    have hc : i + 1 + (j : Int) = i + ((Nat.succ j : Nat) : Int) := by push_cast; ring
    rw [hc]

/-- Every finishing entry is placed on a business day. -/
lemma distFin_biz (c : CalendarM) (base extra : Int) :
    ∀ (n : Nat) (i cur : Int), ∀ p ∈ distFin c base extra n i cur,
      is_business_day c p.1 = true := by
  intro n
  induction n with
  | zero => intro i cur p hp; cases hp
  | succ m ih =>
    intro i cur p hp
    rcases List.mem_cons.mp hp with rfl | hp
    · by_cases hb : is_business_day c cur
      · simpa [hb]
      · simp only [hb]
        simpa using add_business_days_one_biz c cur
    · exact ih (i + 1) _ p hp

/-- The total quantity distributed over `n` entries. -/
lemma distFin_sum (c : CalendarM) (base extra : Int) :
    ∀ (n : Nat) (i cur : Int),
      sumSnd (distFin c base extra n i cur) =
        n * base + max 0 (min (n : Int) (extra - i)) := by
  intro n
  induction n with
  | zero => intro i cur; simp [sumSnd, distFin]
  | succ m ih =>
    intro i cur
    simp only [distFin, sumSnd, List.map_cons, List.sum_cons]
    have hih := ih (i + 1) (add_business_days c
      (if ¬ is_business_day c cur then add_business_days c cur 1 else cur) 1)
    rw [sumSnd] at hih
    rw [hih]
    have hmul : ((m : Int) + 1) * base = (m : Int) * base + base := by ring
    push_cast
    rw [hmul]
    split <;> omega

/-- C7.  The finishing window uses the largest `days ∈ [finishing_days_min,
finishing_days_nominal]` whose finishing end is on or before the due date,
falling back to `finishing_days_min` when none fits; and the parts are
distributed over the chosen window with base `parts_total // days` per entry,
the first `parts_total mod days` entries getting one extra part, every entry
on a business day. -/
theorem claim_C7 (c : CalendarM) (fs due nominal minimum : Int)
    (h1 : 1 ≤ minimum) (h2 : minimum ≤ nominal) :
    (minimum ≤ finishingChoice c fs due nominal minimum ∧
      finishingChoice c fs due nominal minimum ≤ nominal) ∧
    (add_business_days c fs (finishingChoice c fs due nominal minimum) ≤ due →
      ∀ e, finishingChoice c fs due nominal minimum < e → e ≤ nominal →
        ¬ (add_business_days c fs e ≤ due)) ∧
    (¬ (add_business_days c fs (finishingChoice c fs due nominal minimum) ≤ due) →
      finishingChoice c fs due nominal minimum = minimum) ∧
    (∀ (total cur : Int),
      (distFin c (total.fdiv (finishingChoice c fs due nominal minimum))
          (total.fmod (finishingChoice c fs due nominal minimum))
          (finishingChoice c fs due nominal minimum).toNat 0 cur).map Prod.snd =
        (List.range (finishingChoice c fs due nominal minimum).toNat).map
          (fun j : Nat => total.fdiv (finishingChoice c fs due nominal minimum) +
            if (j : Int) < total.fmod (finishingChoice c fs due nominal minimum) then 1
            else 0) ∧
      ∀ p ∈ distFin c (total.fdiv (finishingChoice c fs due nominal minimum))
          (total.fmod (finishingChoice c fs due nominal minimum))
          (finishingChoice c fs due nominal minimum).toNat 0 cur,
        is_business_day c p.1 = true) := by
  have hk : (((nominal - minimum + 1).toNat : Int)) = nominal - minimum + 1 := by omega
  have hcases := finChoiceAux_cases c fs due minimum ((nominal - minimum + 1).toNat) nominal
  have hbounds : minimum ≤ finishingChoice c fs due nominal minimum ∧
      finishingChoice c fs due nominal minimum ≤ nominal := by
    unfold finishingChoice
    rcases hcases with h | ⟨ha, hb, _⟩
    · rw [h]; exact ⟨le_rfl, h2⟩
    · rw [hk] at ha
      exact ⟨by omega, hb⟩
  refine ⟨hbounds, ?_, ?_, ?_⟩
  · intro hfit e he1 he2 hefit
    have := finChoiceAux_maximal c fs due minimum ((nominal - minimum + 1).toNat)
      nominal e (by rw [hk]; omega) he2 hefit
    unfold finishingChoice at he1
    omega
  · intro hnofit
    rcases hcases with h | ⟨_, _, hc⟩
    · exact h
    · exact absurd hc hnofit
  · intro total cur
    exact ⟨by
        rw [distFin_quantities]
        apply List.map_congr_left
        intro j _
        simp,
      distFin_biz c _ _ _ 0 cur⟩

/-- Witness for C7: a concrete window with `minimum = 2`, `nominal = 3`. -/
theorem claim_C7_witness :
    (1 : Int) ≤ 2 ∧ (2 : Int) ≤ 3 ∧
    (2 ≤ finishingChoice calNoHolidays 4 30 3 2 ∧
      finishingChoice calNoHolidays 4 30 3 2 ≤ 3) :=
  ⟨by decide, by decide, (claim_C7 calNoHolidays 4 30 3 2 (by decide) (by decide)).1⟩

/-! ## Soundness of the try_schedule loop

The facts proved of every successful dry-run: every provisional molding entry
was gated by all availability checks against the (unmodified) ledger, molding
days strictly increase, the staging/pouring/shakeout lists are the per-day
phase chain of the molding list, the quantities sum to the order's molds, and
the tentative flask overlay equals the per-day sum of the entries' occupation
ranges and never overflows a flask limit. -/

/-- The per-day sum of flask occupation over a list of molding entries (what
`temp_flask_pool` accumulates, and what committing them adds to the ledger). -/
def tempSumOf (o : Order) (entries : List MoldEntry) (d : Int) (s : FlaskSize) : Int :=
  (entries.map (fun e =>
    if e.mold_day ≤ d ∧ d ≤ e.flask_release_day ∧ s = o.flask_size then e.qty else 0)).sum

/-- A molding entry that passed every availability check of `try_schedule`
against ledger `rm`. -/
def GoodEntry (o : Order) (c : CalendarM) (rm : ResourceManager) (e : MoldEntry) : Prop :=
  1 ≤ e.qty ∧
  is_business_day c e.mold_day = true ∧
  e.flask_release_day = shakeoutOf c o e.mold_day ∧
  rm.daily_molds e.mold_day + e.qty ≤ rm.max_molds_per_day ∧
  rm.same_part_molds e.mold_day o.order_id + e.qty ≤ rm.max_same_part_molds_per_day ∧
  (e.qty : Rat) * ((o.parts_per_mold : Rat) * o.part_weight_ton) ≤
    rm.max_pouring_tons_per_day - rm.daily_pouring (pouringOf c e.mold_day) ∧
  (∀ m, rm.product_family_max_mix.lookup o.product_family = some m →
    rm.product_family_usage e.mold_day o.product_family + e.qty ≤
      Int.floor (m * (rm.max_molds_per_day : Rat)))

/-- The state-independent part of the loop invariant. -/
def TsCore (o : Order) (c : CalendarM) (rm : ResourceManager) (total rem : Int)
    (dp : List (Int × Int)) (sch : TrySchedule) : Prop :=
  (∀ e ∈ sch.molding, GoodEntry o c rm e) ∧
  List.Chain' (fun a b => a.mold_day < b.mold_day) sch.molding ∧
  (∀ d, rm.flask_pool d o.flask_size + tempSumOf o sch.molding d o.flask_size ≤
    max (rm.flask_pool d o.flask_size) (rm.flask_limits o.flask_size)) ∧
  sch.staging = sch.molding.map (fun e => (e.mold_day + 1, e.qty)) ∧
  sch.pouring = sch.molding.map (fun e => (pouringOf c e.mold_day,
    round3 ((e.qty : Rat) * ((o.parts_per_mold : Rat) * o.part_weight_ton)))) ∧
  sch.shakeout = sch.molding.map (fun e => (shakeoutOf c o e.mold_day, e.qty)) ∧
  dp = sch.molding.map (fun e => (e.mold_day, e.qty)) ∧
  (sch.molding.map MoldEntry.qty).sum + rem = total ∧
  0 ≤ rem ∧
  sch.finishing = []

/-- The full loop invariant: the core, the overlay/entry correspondence, and
the bound on past molding days. -/
def TsInv (o : Order) (c : CalendarM) (rm : ResourceManager) (total rem day : Int)
    (temp : Int → FlaskSize → Int) (dp : List (Int × Int)) (sch : TrySchedule) : Prop :=
  TsCore o c rm total rem dp sch ∧
  (∀ d s, temp d s = tempSumOf o sch.molding d s) ∧
  (∀ e ∈ sch.molding, e.mold_day < day)

lemma tempSumOf_append (o : Order) (l : List MoldEntry) (e : MoldEntry) (d : Int)
    (s : FlaskSize) :
    tempSumOf o (l ++ [e]) d s = tempSumOf o l d s +
      (if e.mold_day ≤ d ∧ d ≤ e.flask_release_day ∧ s = o.flask_size then e.qty else 0) := by
  unfold tempSumOf
  simp

lemma tempSumOf_nonneg (o : Order) (l : List MoldEntry) (d : Int) (s : FlaskSize)
    (h : ∀ e ∈ l, 1 ≤ e.qty) : 0 ≤ tempSumOf o l d s := by
  unfold tempSumOf
  apply List.sum_nonneg
  intro x hx
  rcases List.mem_map.mp hx with ⟨e, he, rfl⟩
  have := h e he
  split <;> omega

/-- The commit step preserves the invariant. -/
lemma TsInv_commit (o : Order) (c : CalendarM) (rm : ResourceManager)
    (htpm : 0 < (o.parts_per_mold : Rat) * o.part_weight_ton)
    (total rem day : Int) (temp : Int → FlaskSize → Int) (dp : List (Int × Int))
    (sch : TrySchedule)
    (hInv : TsInv o c rm total rem day temp dp sch)
    (hb : is_business_day c day = true)
    (hpos : ¬ availableToday o c rm temp day rem ≤ 0) :
    TsInv o c rm total (rem - availableToday o c rm temp day rem)
      (add_business_days c day 1)
      (tempAfter o c temp day (availableToday o c rm temp day rem))
      (dp ++ [(day, availableToday o c rm temp day rem)])
      (schedAfter o c sch day (availableToday o c rm temp day rem)) := by
  obtain ⟨⟨hGood, hChain, hFlask, hStag, hPour, hShake, hDp, hSum, hRem, hFin⟩, hTemp, hDay⟩ := hInv
  set q := availableToday o c rm temp day rem with hq
  have hq1 : 1 ≤ q := by omega
  have hqrem : q ≤ rem := availableToday_le_rem o c rm temp day rem
  have hmolds := availableToday_le_molds o c rm temp day rem
  have hpourq := availableToday_le_pouring o c rm temp day rem
  rw [compute_available_molds] at hmolds
  have hGoodNew : GoodEntry o c rm
      { mold_day := day, qty := q, flask_release_day := shakeoutOf c o day } := by
    unfold GoodEntry
    dsimp only
    refine ⟨hq1, hb, rfl, ?_, ?_, ?_, ?_⟩
    · have := min_le_left (rm.max_molds_per_day - rm.daily_molds day)
        (rm.max_same_part_molds_per_day - rm.same_part_molds day o.order_id)
      omega
    · have := min_le_right (rm.max_molds_per_day - rm.daily_molds day)
        (rm.max_same_part_molds_per_day - rm.same_part_molds day o.order_id)
      omega
    · rw [compute_available_pouring] at hpourq
      rw [show (ratFloor ((rm.max_pouring_tons_per_day - rm.daily_pouring (pouringOf c day)) /
          ((o.parts_per_mold : Rat) * o.part_weight_ton))) =
        Int.floor ((rm.max_pouring_tons_per_day - rm.daily_pouring (pouringOf c day)) /
          ((o.parts_per_mold : Rat) * o.part_weight_ton)) from ratFloor_eq_floor _] at hpourq
      have h1 : (q : Rat) ≤ (rm.max_pouring_tons_per_day - rm.daily_pouring (pouringOf c day)) /
          ((o.parts_per_mold : Rat) * o.part_weight_ton) := by
        have := Int.le_floor.mp hpourq
        exact_mod_cast this
      calc (q : Rat) * ((o.parts_per_mold : Rat) * o.part_weight_ton)
          ≤ ((rm.max_pouring_tons_per_day - rm.daily_pouring (pouringOf c day)) /
              ((o.parts_per_mold : Rat) * o.part_weight_ton)) *
            ((o.parts_per_mold : Rat) * o.part_weight_ton) := by
            exact mul_le_mul_of_nonneg_right h1 (le_of_lt htpm)
        _ = rm.max_pouring_tons_per_day - rm.daily_pouring (pouringOf c day) := by
            field_simp
    · intro m hm
      have hmix : compute_available_mix rm o day =
          some (ratFloor (m * (rm.max_molds_per_day : Rat) -
            (rm.product_family_usage day o.product_family : Rat))) := by
        unfold compute_available_mix
        rw [hm]
      have hqm := availableToday_le_mix o c rm temp day rem hmix
      rw [ratFloor_eq_floor] at hqm
      rw [show (m * (rm.max_molds_per_day : Rat) -
          (rm.product_family_usage day o.product_family : Rat)) =
          (m * (rm.max_molds_per_day : Rat)) -
          ((rm.product_family_usage day o.product_family : Int) : Rat) from by norm_num,
        Int.floor_sub_int] at hqm
      omega
  refine ⟨⟨?_, ?_, ?_, ?_, ?_, ?_, ?_, ?_, ?_, ?_⟩, ?_, ?_⟩
  · intro e he
    simp only [schedAfter, List.mem_append, List.mem_singleton] at he
    rcases he with he | rfl
    · exact hGood e he
    · exact hGoodNew
  · rw [schedAfter]
    rw [List.chain'_append]
    refine ⟨hChain, List.chain'_singleton _, ?_⟩
    intro x hx y hy
    simp only [List.head?_cons, Option.mem_def, Option.some.injEq] at hy
    subst hy
    exact hDay x (List.mem_of_mem_getLast? hx)
  · intro d
    simp only [schedAfter]
    rw [tempSumOf_append]
    dsimp only
    by_cases hd : day ≤ d ∧ d ≤ shakeoutOf c o day ∧ o.flask_size = o.flask_size
    · rw [if_pos hd]
      have hdd : d ∈ flaskDaysOf c o day := by
        unfold flaskDaysOf
        rw [mem_rangeDays]
        exact ⟨hd.1, hd.2.1⟩
      have hle := availableToday_le_flask o c rm temp day rem hdd
      rw [hTemp d o.flask_size] at hle
      have hmax := le_max_right (rm.flask_pool d o.flask_size) (rm.flask_limits o.flask_size)
      omega
    · rw [if_neg hd]
      simpa using hFlask d
  · simp only [schedAfter]
    rw [hStag, List.map_append]
    rfl
  · simp only [schedAfter]
    rw [hPour, List.map_append]
    rfl
  · simp only [schedAfter]
    rw [hShake, List.map_append]
    rfl
  · simp only [schedAfter]
    rw [hDp, List.map_append]
    rfl
  · simp only [schedAfter, List.map_append, List.sum_append, List.map_cons, List.map_nil,
      List.sum_cons, List.sum_nil]
    omega
  · omega
  · simp only [schedAfter]
    exact hFin
  · intro d s
    simp only [schedAfter]
    rw [tempSumOf_append, ← hTemp d s]
    show tempAfter o c temp day q d s = _
    rw [tempAfter]
    dsimp only
    split_ifs <;> omega
  · intro e he
    simp only [schedAfter, List.mem_append, List.mem_singleton] at he
    rcases he with he | rfl
    · exact lt_trans (hDay e he) (add_business_days_one_gt c day)
    · exact add_business_days_one_gt c day

/-- Soundness of the molding loop: a successful run ends with `rem = 0` and a
schedule satisfying the core invariant. -/
lemma tsLoop_sound (o : Order) (c : CalendarM) (rm : ResourceManager)
    (htpm : 0 < (o.parts_per_mold : Rat) * o.part_weight_ton) (total : Int) :
    ∀ (fuel : Nat) (rem day : Int) (temp : Int → FlaskSize → Int)
      (dp : List (Int × Int)) (sch : TrySchedule) (out : Int × List (Int × Int) × TrySchedule),
      tsLoop o c rm fuel rem day temp dp sch = some out →
      TsInv o c rm total rem day temp dp sch →
      out.1 = 0 ∧ TsCore o c rm total 0 out.2.1 out.2.2 := by
  intro fuel
  induction fuel with
  | zero => intro rem day temp dp sch out h _; cases h
  | succ n ih =>
    intro rem day temp dp sch out h hInv
    rw [tsLoop_step] at h
    by_cases hrem : rem ≤ 0
    · rw [if_pos hrem] at h
      injection h with h
      subst h
      have h0 : rem = 0 := le_antisymm hrem hInv.1.2.2.2.2.2.2.2.2.1
      subst h0
      exact ⟨rfl, hInv.1⟩
    · rw [if_neg hrem] at h
      cases hb : is_business_day c day with
      | false =>
        rw [if_pos (by simp [hb])] at h
        refine ih rem _ temp dp sch out h ⟨hInv.1, hInv.2.1, ?_⟩
        intro e he
        exact lt_trans (hInv.2.2 e he) (add_business_days_one_gt c day)
      | true =>
        rw [if_neg (by simp [hb])] at h
        by_cases hav : availableToday o c rm temp day rem ≤ 0
        · rw [if_pos hav] at h
          refine ih rem _ temp dp sch out h ⟨hInv.1, hInv.2.1, ?_⟩
          intro e he
          exact lt_trans (hInv.2.2 e he) (add_business_days_one_gt c day)
        · rw [if_neg hav] at h
          exact ih _ _ _ _ _ out h (TsInv_commit o c rm htpm total rem day temp dp sch hInv hb hav)

/-- The terminal phase chain of `try_schedule` lines 226-231, recomputed from
the *last* molding day: unlike the per-day chain, `pouring` and `shakeout` use
`next_business_day` unconditionally, so a business-day staging or cooling end
is still skipped past.  `finishing_start` is the next business day after that
shakeout. -/
def terminalChainFinishingStart (c : CalendarM) (o : Order) (last_mold_day : Int) : Int :=
  next_business_day c
    (next_business_day c (next_business_day c (last_mold_day + 1) + o.cooling_days))

/-- Everything a successful `try_schedule` guarantees about its schedule. -/
lemma try_schedule_sound (o : Order) (c : CalendarM) (rm : ResourceManager)
    (start : Int) (fuel : Nat) (sched : TrySchedule)
    (htpm : 0 < (o.parts_per_mold : Rat) * o.part_weight_ton)
    (htot : 0 ≤ o.total_molds)
    (heq : try_schedule o start c rm fuel = some (some sched)) :
    (∀ e ∈ sched.molding, GoodEntry o c rm e) ∧
    List.Chain' (fun a b => a.mold_day < b.mold_day) sched.molding ∧
    (∀ d, rm.flask_pool d o.flask_size + tempSumOf o sched.molding d o.flask_size ≤
      max (rm.flask_pool d o.flask_size) (rm.flask_limits o.flask_size)) ∧
    sched.staging = sched.molding.map (fun e => (e.mold_day + 1, e.qty)) ∧
    sched.pouring = sched.molding.map (fun e => (pouringOf c e.mold_day,
      round3 ((e.qty : Rat) * ((o.parts_per_mold : Rat) * o.part_weight_ton)))) ∧
    sched.shakeout = sched.molding.map (fun e => (shakeoutOf c o e.mold_day, e.qty)) ∧
    (sched.molding.map MoldEntry.qty).sum = o.total_molds ∧
    sched.molding ≠ [] ∧
    (∃ lastE, sched.molding.getLast? = some lastE ∧
      sched.finishing = distFin c
        (o.parts_total.fdiv (finishingChoice c (terminalChainFinishingStart c o lastE.mold_day)
          o.due_date o.finishing_days_nominal o.finishing_days_min))
        (o.parts_total.fmod (finishingChoice c (terminalChainFinishingStart c o lastE.mold_day)
          o.due_date o.finishing_days_nominal o.finishing_days_min))
        (finishingChoice c (terminalChainFinishingStart c o lastE.mold_day)
          o.due_date o.finishing_days_nominal o.finishing_days_min).toNat 0
        (terminalChainFinishingStart c o lastE.mold_day)) := by
  unfold try_schedule at heq
  cases hloop : tsLoop o c rm fuel o.total_molds start (fun _ _ => 0) [] emptyTrySchedule with
  | none => rw [hloop] at heq; cases heq
  | some out =>
    obtain ⟨rem0, dp0, sch0⟩ := out
    rw [hloop] at heq
    have hsound := tsLoop_sound o c rm htpm o.total_molds fuel o.total_molds start
      (fun _ _ => 0) [] emptyTrySchedule (rem0, dp0, sch0) hloop
      ⟨⟨fun e he => absurd he (List.not_mem_nil e), List.chain'_nil,
        fun d => by simpa [tempSumOf, emptyTrySchedule] using
          le_max_left (rm.flask_pool d o.flask_size) (rm.flask_limits o.flask_size),
        rfl, rfl, rfl, rfl, by simp [emptyTrySchedule], htot, rfl⟩,
        fun d s => rfl, fun e he => absurd he (List.not_mem_nil e)⟩
    obtain ⟨hrem0, hCore⟩ := hsound
    dsimp only at hrem0 hCore heq
    subst hrem0
    obtain ⟨hGood, hChain, hFlask, hStag, hPour, hShake, hDp, hSum, _, hFin⟩ := hCore
    by_cases hcase : (0 : Int) > 0 ∨ dp0 = []
    · rw [if_pos hcase] at heq
      cases heq
    · rw [if_neg hcase] at heq
      push_neg at hcase
      have hdpne : dp0 ≠ [] := hcase.2
      cases hlast : dp0.getLast? with
      | none =>
        exact absurd (List.getLast?_eq_none_iff.mp hlast) hdpne
      | some lastP =>
        obtain ⟨lastD, lastQ⟩ := lastP
        rw [hlast] at heq
        simp only [Option.some.injEq] at heq
        subst heq
        have hmne : sch0.molding ≠ [] := by
          intro hnil
          rw [hDp, hnil] at hdpne
          exact hdpne rfl
        have hlast' : sch0.molding.getLast?.map
            (fun e => (e.mold_day, e.qty)) = some (lastD, lastQ) := by
          rw [← List.getLast?_map, ← hDp, hlast]
        cases hlastE : sch0.molding.getLast? with
        | none => rw [hlastE] at hlast'; cases hlast'
        | some lastE =>
          rw [hlastE] at hlast'
          simp only [Option.map_some', Option.some.injEq] at hlast'
          have hday : lastE.mold_day = lastD := congrArg Prod.fst hlast'
          dsimp only
          refine ⟨hGood, hChain, hFlask, hStag, hPour, hShake, by omega, hmne,
            lastE, rfl, ?_⟩
          rw [hday]
          rfl

/-! ## Claim C6: the phase chain -/

/-- C6 (amended).  For every molding day of a successful dry-run the per-day
chain is as claimed: staging is the next calendar day, pouring is staging when
staging is a business day and otherwise the next business day, cooling ends at
pouring + cooling_days, and shakeout is cooling-end when it is a business day
and otherwise the next business day (`pouringOf` / `shakeoutOf`), with the
flask released at shakeout.  The terminal chain used to place finishing,
however, applies `next_business_day` unconditionally to both staging and each
cooling end (`terminalChainFinishingStart`), skipping past business days the
per-day rule would keep. -/
theorem claim_C6 (o : Order) (c : CalendarM) (rm : ResourceManager) (start : Int)
    (fuel : Nat) (sched : TrySchedule)
    (htpm : 0 < (o.parts_per_mold : Rat) * o.part_weight_ton)
    (htot : 0 ≤ o.total_molds)
    (heq : try_schedule o start c rm fuel = some (some sched)) :
    sched.staging = sched.molding.map (fun e => (e.mold_day + 1, e.qty)) ∧
    sched.pouring = sched.molding.map (fun e => (pouringOf c e.mold_day,
      round3 ((e.qty : Rat) * ((o.parts_per_mold : Rat) * o.part_weight_ton)))) ∧
    sched.shakeout = sched.molding.map (fun e => (shakeoutOf c o e.mold_day, e.qty)) ∧
    (∀ e ∈ sched.molding, e.flask_release_day = shakeoutOf c o e.mold_day) ∧
    (∀ lastE, sched.molding.getLast? = some lastE →
      sched.finishing.head?.map Prod.fst =
        (sched.finishing.head?.map Prod.fst).map (fun _ =>
          terminalChainFinishingStart c o lastE.mold_day)) := by
  obtain ⟨hGood, _, _, hStag, hPour, hShake, _, hne, lastE, hlastE, hfin⟩ :=
    try_schedule_sound o c rm start fuel sched htpm htot heq
  refine ⟨hStag, hPour, hShake, fun e he => (hGood e he).2.2.1, ?_⟩
  intro lastE' hlastE'
  rw [hlastE'] at hlastE
  injection hlastE with hlastE
  subst hlastE
  rw [hfin]
  cases hn : (finishingChoice c (terminalChainFinishingStart c o lastE'.mold_day)
      o.due_date o.finishing_days_nominal o.finishing_days_min).toNat with
  | zero => rfl
  | succ k =>
    rw [distFin]
    have hbfs : is_business_day c (terminalChainFinishingStart c o lastE'.mold_day) = true :=
      next_business_day_biz c _
    simp [hbfs]

unseal Rat.mul Rat.inv Rat.add Rat.sub in
/-- Counterexample to C6 as stated: for `orderA1` (last molding day 0, a
Monday, cooling 0) the claimed terminal chain gives staging Tuesday (a
business day), so pouring Tuesday, shakeout Tuesday and finishing from
Wednesday (day 2); the code's terminal chain instead starts finishing on
Friday (day 4). -/
theorem claim_C6_counterexample :
    ¬ (∀ (sched : TrySchedule) (lastE : MoldEntry),
        try_schedule orderA1 0 calNoHolidays rmWide 50 = some (some sched) →
        sched.molding.getLast? = some lastE →
        sched.finishing.head?.map Prod.fst =
          some (next_business_day calNoHolidays
            (shakeoutOf calNoHolidays orderA1 lastE.mold_day))) := by
  intro h
  have hrun : try_schedule orderA1 0 calNoHolidays rmWide 50 =
      some (some { molding := [{ mold_day := 0, qty := 2, flask_release_day := 1 }],
                   staging := [(1, 2)], pouring := [(1, 2)], shakeout := [(1, 2)],
                   finishing := [(4, 2)] }) := by rfl
  have := h _ { mold_day := 0, qty := 2, flask_release_day := 1 } hrun rfl
  rw [show next_business_day calNoHolidays
      (shakeoutOf calNoHolidays orderA1 (0 : Int)) = 2 from rfl] at this
  exact absurd this (by decide)

unseal Rat.mul Rat.inv Rat.add Rat.sub in
/-- Witness for the amended C6 at the same concrete run. -/
theorem claim_C6_witness :
    try_schedule orderA1 0 calNoHolidays rmWide 50 =
      some (some { molding := [{ mold_day := 0, qty := 2, flask_release_day := 1 }],
                   staging := [(1, 2)], pouring := [(1, 2)], shakeout := [(1, 2)],
                   finishing := [(4, 2)] }) ∧
    ([(1, 2)] : List (Int × Int)) =
      [{ mold_day := 0, qty := 2, flask_release_day := 1 : MoldEntry }].map
        (fun e => (e.mold_day + 1, e.qty)) :=
  ⟨rfl, (claim_C6 orderA1 calNoHolidays rmWide 0 50 _ (by norm_num [orderA1])
    (by decide) rfl).1⟩

/-! ## From the dry-run to the committed plan -/

lemma finishingChoice_ge_min (c : CalendarM) (fs due nominal minimum : Int) :
    minimum ≤ finishingChoice c fs due nominal minimum := by
  unfold finishingChoice
  rcases finChoiceAux_cases c fs due minimum ((nominal - minimum + 1).toNat) nominal with
    h | ⟨ha, hb, _⟩
  · omega
  · have ht : (((nominal - minimum + 1).toNat : Int)) = max (nominal - minimum + 1) 0 := by
      omega
    omega

/-- A `try_schedule` that returns a schedule had a positive mold count:
with `total_molds ≤ 0` the loop exits at once with an empty `daily_plan` and
the function returns `(False, None)`. -/
lemma try_schedule_pos (o : Order) (c : CalendarM) (rm : ResourceManager)
    (start : Int) (fuel : Nat) (sched : TrySchedule)
    (heq : try_schedule o start c rm fuel = some (some sched)) : 0 < o.total_molds := by
  by_contra h
  push_neg at h
  cases fuel with
  | zero => cases heq
  | succ n =>
    unfold try_schedule at heq
    rw [tsLoop_step, if_pos h] at heq
    dsimp only at heq
    rw [if_pos (Or.inr rfl)] at heq
    cases heq

/-- What `firm_schedule` returns: the dry-run lists verbatim (molding as
`(day, qty)` pairs), the last finishing day, and the ledger after the
reservation folds. -/
lemma firm_schedule_spec (o : Order) (rm : ResourceManager) (plan : TrySchedule)
    (ms st : List (Int × Int)) (po : List (Int × Rat)) (sh fi : List (Int × Int))
    (endD : Int) (rm' : ResourceManager)
    (h : firm_schedule o rm plan = some ((ms, st, po, sh, fi), endD, rm')) :
    ms = plan.molding.map (fun e => (e.mold_day, e.qty)) ∧ st = plan.staging ∧
    po = plan.pouring ∧ sh = plan.shakeout ∧ fi = plan.finishing ∧
    (∃ q, plan.finishing.getLast? = some (endD, q)) := by
  unfold firm_schedule at h
  dsimp only at h
  cases hlast : plan.finishing.getLast? with
  | none => rw [hlast] at h; cases h
  | some p =>
    obtain ⟨d0, q0⟩ := p
    rw [hlast] at h
    simp only [Option.some.injEq, Prod.mk.injEq] at h
    obtain ⟨⟨h1, h2, h3, h4, h5⟩, h6, _⟩ := h
    exact ⟨h1.symm, h2.symm, h3.symm, h4.symm, h5.symm, q0, by rw [h6]⟩

/-- The shape of a successful `plan_order` search: some start date's dry-run
succeeded and was committed. -/
def PlanSuccess (o : Order) (c : CalendarM) (rm : ResourceManager) (fuel : Nat)
    (r : PlanResult) (rm' : ResourceManager) : Prop :=
  ∃ (start endD : Int) (sched : TrySchedule) (ms st : List (Int × Int))
    (po : List (Int × Rat)) (sh fi : List (Int × Int)),
    try_schedule o start c rm fuel = some (some sched) ∧
    firm_schedule o rm sched = some ((ms, st, po, sh, fi), endD, rm') ∧
    r = { order_id := o.order_id,
          status := (if endD ≤ o.due_date then OrderStatus.ONTIME else OrderStatus.DELAYED),
          start_date := some start, end_date := some endD,
          schedule := { emptySchedule with molding := ms, staging := st, pouring := po,
                                           shakeout := sh, finishing := fi } }

/-- One unfolding of the `plan_order` search loop. -/
lemma planOrderLoop_step (o : Order) (c : CalendarM) (rm : ResourceManager)
    (dir : Int) (fuel : Nat) (n : Nat) (sd : Int) :
    planOrderLoop o c rm dir fuel (n + 1) sd =
      if ¬ is_business_day c sd then
        planOrderLoop o c rm dir fuel n (add_business_days c sd dir)
      else
        match try_schedule o sd c rm fuel with
        | none => none
        | some none => planOrderLoop o c rm dir fuel n (add_business_days c sd dir)
        | some (some plan) =>
          match firm_schedule o rm plan with
          | none => none
          | some ((molding, staging, pouring, shakeout, finishing), end_date, rm') =>
            some (some ({ order_id := o.order_id,
                          status := (if end_date ≤ o.due_date then OrderStatus.ONTIME
                            else OrderStatus.DELAYED),
                          start_date := some sd, end_date := some end_date,
                          schedule :=
                            { emptySchedule with molding := molding, staging := staging,
                                                 pouring := pouring, shakeout := shakeout,
                                                 finishing := finishing } }, rm')) :=
  rfl

/-- Every result the search loop can hand back is either exhaustion or a
committed success. -/
lemma planOrderLoop_cases (o : Order) (c : CalendarM) (rm : ResourceManager)
    (dir : Int) (fuel : Nat) :
    ∀ (attempts : Nat) (sd : Int) (out : Option (PlanResult × ResourceManager)),
      planOrderLoop o c rm dir fuel attempts sd = some out →
      out = none ∨ ∃ r rm', out = some (r, rm') ∧ PlanSuccess o c rm fuel r rm' := by
  intro attempts
  induction attempts with
  | zero =>
    intro sd out h
    injection h with h
    exact Or.inl h.symm
  | succ n ih =>
    intro sd out h
    rw [planOrderLoop_step] at h
    by_cases hb : is_business_day c sd
    · rw [if_neg (by simp [hb])] at h
      cases hts : try_schedule o sd c rm fuel with
      | none => rw [hts] at h; cases h
      | some inner =>
        cases inner with
        | none =>
          rw [hts] at h
          exact ih _ out h
        | some plan =>
          rw [hts] at h
          dsimp only at h
          cases hfirm : firm_schedule o rm plan with
          | none => rw [hfirm] at h; cases h
          | some res =>
            obtain ⟨⟨ms, st, po, sh, fi⟩, endD, rm2⟩ := res
            rw [hfirm] at h
            injection h with h
            right
            refine ⟨_, rm2, h.symm, sd, endD, plan, ms, st, po, sh, fi, hts, hfirm, rfl⟩
    · rw [if_pos (by simp [hb])] at h
      exact ih _ out h

/-- `plan_order` either returns the UNSCHEDULED result with the ledger and
order untouched, or commits a successful dry-run.  (The JIT fallback guard is
constantly `False`, so the recursive retry contributes nothing.) -/
lemma plan_order_cases (o : Order) (c : CalendarM) (rm : ResourceManager) (today : Int)
    (msd sdays : Int) (sd? : Option Int) (fuel : Nat) (r : PlanResult)
    (rm' : ResourceManager) (o' : Order)
    (h : plan_order o c rm today msd sdays sd? fuel = some (r, rm', o')) :
    o' = o ∧
    ((r = unscheduledPlan o ∧ rm' = rm) ∨ PlanSuccess o c rm fuel r rm') := by
  unfold plan_order planOrderGo at h
  simp only [strategyNameEqEnum, Bool.false_eq_true, if_false] at h
  cases hloop : planOrderLoop o c rm
      (startAndDirection o c today (compute_estimated_duration o rm.max_molds_per_day)
        sdays sd?).2 fuel msd.toNat
      (startAndDirection o c today (compute_estimated_duration o rm.max_molds_per_day)
        sdays sd?).1 with
  | none => rw [hloop] at h; cases h
  | some out =>
    rw [hloop] at h
    rcases planOrderLoop_cases o c rm _ fuel msd.toNat _ out hloop with rfl | ⟨r0, rm0, rfl, hps⟩
    · simp only [Option.some.injEq, Prod.mk.injEq] at h
      exact ⟨h.2.2.symm, Or.inl ⟨h.1.symm, h.2.1.symm⟩⟩
    · simp only [Option.some.injEq, Prod.mk.injEq] at h
      obtain ⟨h1, h2, h3⟩ := h
      subst h1; subst h2; subst h3
      exact ⟨rfl, Or.inr hps⟩

/-! ## Claim C8: conservation of molds and parts -/

/-- Ceiling division of an exact multiple. -/
lemma ceilDiv_mul_cancel (s m : Int) (hm : m ≠ 0) : ceilDiv (s * m) m = s := by
  unfold ceilDiv
  rw [show -(s * m) = (-s) * m by ring, Int.mul_fdiv_cancel _ hm, neg_neg]

/-- Removing `s` whole molds from the part count removes exactly `s` from the
ceiling-divided mold count. -/
lemma ceilDiv_sub_mul (P s m : Int) (hm : 0 < m) :
    ceilDiv (P - s * m) m = ceilDiv P m - s := by
  unfold ceilDiv
  rw [Int.fdiv_eq_ediv _ hm.le, Int.fdiv_eq_ediv _ hm.le,
    show -(P - s * m) = -P + s * m by ring,
    Int.add_mul_ediv_right _ _ (by omega : m ≠ 0)]
  ring

/-- Distributing `P` parts over `days` finishing entries (base `P // days`,
the first `P mod days` entries one extra) hands out exactly `P` parts. -/
lemma distFin_fdiv_fmod_sum (c : CalendarM) (P days cur : Int) (hd : 0 < days) :
    sumSnd (distFin c (P.fdiv days) (P.fmod days) days.toNat 0 cur) = P := by
  rw [distFin_sum, Int.toNat_of_nonneg hd.le]
  have h2 := Int.fmod_nonneg' P hd
  have h3 := Int.fmod_lt_of_pos P hd
  have hmax : max 0 (min days (P.fmod days - 0)) = P.fmod days := by omega
  rw [hmax]
  exact Int.fdiv_add_fmod P days

/-- A non-UNSCHEDULED `plan_order` result carries exactly the order's
`total_molds` in molding and exactly its `parts_total` in finishing, and no
pattern or sample_end entries. -/
lemma plan_order_sums (o : Order) (c : CalendarM) (rm : ResourceManager)
    (today msd sdays : Int) (sd? : Option Int) (fuel : Nat)
    (r : PlanResult) (rm' : ResourceManager) (o' : Order)
    (htpm : 0 < (o.parts_per_mold : Rat) * o.part_weight_ton)
    (hfin : 1 ≤ o.finishing_days_min)
    (h : plan_order o c rm today msd sdays sd? fuel = some (r, rm', o'))
    (hns : r.status ≠ OrderStatus.UNSCHEDULED) :
    sumSnd r.schedule.molding = o.total_molds ∧
    sumSnd r.schedule.finishing = o.parts_total ∧
    r.schedule.pattern = [] ∧ r.schedule.sample_end = [] := by
  rcases plan_order_cases o c rm today msd sdays sd? fuel r rm' o' h with ⟨-, hcase⟩
  rcases hcase with ⟨hr, -⟩ | hps
  · exact absurd (by rw [hr]; rfl) hns
  · obtain ⟨start, endD, sched, ms, st, po, sh, fi, hts, hfirm, hr⟩ := hps
    have htot : 0 ≤ o.total_molds := (try_schedule_pos o c rm start fuel sched hts).le
    obtain ⟨-, -, -, -, -, -, hSum, -, lastE, -, hFin⟩ :=
      try_schedule_sound o c rm start fuel sched htpm htot hts
    obtain ⟨hms, -, -, -, hfi, -⟩ :=
      firm_schedule_spec o rm sched ms st po sh fi endD rm' hfirm
    subst hr
    refine ⟨?_, ?_, rfl, rfl⟩
    · show sumSnd ms = o.total_molds
      rw [hms, sumSnd, List.map_map]
      exact hSum
    · show sumSnd fi = o.parts_total
      rw [hfi, hFin]
      exact distFin_fdiv_fmod_sum c o.parts_total _ _
        (lt_of_lt_of_le (by omega) (finishingChoice_ge_min c _ o.due_date
          o.finishing_days_nominal o.finishing_days_min))

lemma sumSnd_append (l1 l2 : List (Int × Int)) :
    sumSnd (l1 ++ l2) = sumSnd l1 + sumSnd l2 := by
  simp [sumSnd]

/-- C8.  Every order whose emitted plan is not UNSCHEDULED carries exactly its
original `total_molds` in molding entries and exactly its original
`parts_total` in finishing entries — for recurrent orders directly, and for
new orders because the sample takes `sample_molds` molds
(`sample_molds * parts_per_mold` parts) and the main phase takes the
ceiling-divided remainder, which add back up whenever `total_molds` is the
ceiling of `parts_total / parts_per_mold` as the order parser computes it. -/
theorem claim_C8 (o : Order) (c : CalendarM) (rm : ResourceManager)
    (today msd sdays dap das : Int) (fuel : Nat)
    (r : PlanResult) (rm' : ResourceManager)
    (hppm : 0 < o.parts_per_mold)
    (hw : 0 < o.part_weight_ton)
    (hfin : 1 ≤ o.finishing_days_min)
    (htm : o.total_molds = ceilDiv o.parts_total o.parts_per_mold)
    (h : plan_full_order o c rm today msd sdays dap das fuel = some (r, rm'))
    (hns : r.status ≠ OrderStatus.UNSCHEDULED) :
    sumSnd r.schedule.molding = o.total_molds ∧
    sumSnd r.schedule.finishing = o.parts_total := by
  have htpm : 0 < (o.parts_per_mold : Rat) * o.part_weight_ton :=
    mul_pos (by exact_mod_cast hppm) hw
  unfold plan_full_order at h
  by_cases hnew : o.is_new
  · rw [if_neg (by simp [hnew])] at h
    cases hpat : patternLoop c fuel rm o.pattern_days today [] with
    | none => rw [hpat] at h; cases h
    | some pres =>
      obtain ⟨patternEntries, rm1⟩ := pres
      rw [hpat] at h
      dsimp only at h
      cases hlast : patternEntries.getLast? with
      | none => rw [hlast] at h; cases h
      | some pe =>
        obtain ⟨pattern_end, pq⟩ := pe
        rw [hlast] at h
        dsimp only at h
        cases hsp : plan_order (sampleOrderOf o) c rm1 today msd 0
            (some (add_business_days c pattern_end dap)) fuel with
        | none => rw [hsp] at h; cases h
        | some sres =>
          obtain ⟨sample_plan, rm2, so2⟩ := sres
          rw [hsp] at h
          dsimp only at h
          by_cases hsu : sample_plan.status = OrderStatus.UNSCHEDULED
          · rw [if_pos hsu] at h
            simp only [Option.some.injEq, Prod.mk.injEq] at h
            obtain ⟨h1, -⟩ := h
            subst h1
            exact absurd rfl hns
          · rw [if_neg hsu] at h
            cases hse : sample_plan.end_date with
            | none => rw [hse] at h; cases h
            | some sample_end =>
              rw [hse] at h
              dsimp only at h
              cases hmp : plan_order
                  { o with parts_total := o.parts_total - (sampleOrderOf o).parts_total,
                           total_molds := ceilDiv
                             (o.parts_total - (sampleOrderOf o).parts_total)
                             o.parts_per_mold } c rm2 today msd sdays
                  (some (add_business_days c sample_end das)) fuel with
              | none => rw [hmp] at h; cases h
              | some mres =>
                obtain ⟨main_plan, rm3, mo2⟩ := mres
                rw [hmp] at h
                dsimp only at h
                by_cases hmu : main_plan.status = OrderStatus.UNSCHEDULED
                · rw [if_pos hmu] at h
                  simp only [Option.some.injEq, Prod.mk.injEq] at h
                  obtain ⟨h1, -⟩ := h
                  subst h1
                  exact absurd rfl hns
                · rw [if_neg hmu] at h
                  cases hme : main_plan.end_date with
                  | none => rw [hme] at h; cases h
                  | some main_end =>
                    cases hhd : patternEntries.head? with
                    | none => rw [hme, hhd] at h; cases h
                    | some firstPattern =>
                      rw [hme, hhd] at h
                      dsimp only at h
                      simp only [Option.some.injEq, Prod.mk.injEq] at h
                      obtain ⟨h1, -⟩ := h
                      have hs := plan_order_sums (sampleOrderOf o) c rm1 today msd 0
                        (some (add_business_days c pattern_end dap)) fuel sample_plan rm2 so2
                        (by exact htpm) (by exact hfin) hsp hsu
                      have hm := plan_order_sums
                        { o with parts_total := o.parts_total - (sampleOrderOf o).parts_total,
                                 total_molds := ceilDiv
                                   (o.parts_total - (sampleOrderOf o).parts_total)
                                   o.parts_per_mold } c rm2 today msd sdays
                        (some (add_business_days c sample_end das)) fuel main_plan rm3 mo2
                        (by exact htpm) (by exact hfin) hmp hmu
                      subst h1
                      constructor
                      · show sumSnd (sample_plan.schedule.molding ++
                          main_plan.schedule.molding) = o.total_molds
                        rw [sumSnd_append, hs.1, hm.1]
                        show o.sample_molds + ceilDiv
                          (o.parts_total - o.sample_molds * o.parts_per_mold)
                          o.parts_per_mold = o.total_molds
                        rw [ceilDiv_sub_mul o.parts_total o.sample_molds o.parts_per_mold hppm]
                        omega
                      · show sumSnd (sample_plan.schedule.finishing ++
                          main_plan.schedule.finishing) = o.parts_total
                        rw [sumSnd_append, hs.2.1, hm.2.1]
                        show o.sample_molds * o.parts_per_mold +
                          (o.parts_total - o.sample_molds * o.parts_per_mold) = o.parts_total
                        ring
  · rw [if_pos (by simp [hnew])] at h
    cases hpo : plan_order o c rm today msd sdays none fuel with
    | none => rw [hpo] at h; cases h
    | some pres =>
      obtain ⟨r0, rm0, o0⟩ := pres
      rw [hpo] at h
      simp only [Option.some.injEq, Prod.mk.injEq] at h
      obtain ⟨h1, -⟩ := h
      subst h1
      have := plan_order_sums o c rm today msd sdays none fuel r0 rm0 o0 htpm hfin hpo hns
      exact ⟨this.1, this.2.1⟩

unseal Rat.mul Rat.inv Rat.add Rat.sub in
/-- Witness for C8: the new order `orderE1` is planned ONTIME, its merged
molding entries sum to `total_molds = 5`, its merged finishing entries to
`parts_total = 10`. -/
theorem claim_C8_witness :
    c8res.status ≠ OrderStatus.UNSCHEDULED ∧
    (sumSnd c8res.schedule.molding = orderE1.total_molds ∧
     sumSnd c8res.schedule.finishing = orderE1.parts_total) :=
  ⟨by decide,
   claim_C8 orderE1 calNoHolidays rmWide 0 30 3 3 3 40 c8res c8rm (by decide) (by decide)
     (by decide) (by decide) rfl (by decide)⟩

/-! ## Claims C4, C5: capacities and the committed ledger -/

/-- Python `round` never exceeds its argument by more than one half. -/
lemma pyRound_le (y : Rat) : (pyRound y : Rat) ≤ y + 1/2 := by
  have hdenN : 0 < y.den := y.den_pos
  have hden : (0 : Int) < (y.den : Int) := by exact_mod_cast hdenN
  have hdenR : (0 : Rat) < ((y.den : Nat) : Rat) := by exact_mod_cast hdenN
  have hflo : y.num.fdiv y.den = Int.floor y := ratFloor_eq_floor y
  have hfle : ((y.num.fdiv y.den : Int) : Rat) ≤ y := by
    rw [hflo]; exact Int.floor_le y
  have hnum : (y.num : Rat) = y * ((y.den : Nat) : Rat) := by
    have h := Rat.num_div_den y
    rw [div_eq_iff (ne_of_gt hdenR)] at h
    exact h
  unfold pyRound
  by_cases h1 : 2 * (y.num - y.num.fdiv y.den * y.den) < (y.den : Int)
  · rw [if_pos h1]
    linarith
  · rw [if_neg h1]
    push_neg at h1
    have hhalf : ((y.num.fdiv y.den : Int) : Rat) + 1 ≤ y + 1/2 := by
      have hc : ((y.den : Nat) : Rat) ≤
          2 * ((y.num : Rat) - ((y.num.fdiv y.den : Int) : Rat) * ((y.den : Nat) : Rat)) := by
        exact_mod_cast h1
      rw [hnum] at hc
      by_contra hlt
      push_neg at hlt
      have h3 : 2 * (y - ((y.num.fdiv y.den : Int) : Rat)) < 1 := by linarith
      have h4 := mul_lt_mul_of_pos_left h3 hdenR
      ring_nf at hc h4 ⊢
      linarith
    by_cases h2 : 2 * (y.num - y.num.fdiv y.den * y.den) > (y.den : Int)
    · rw [if_pos h2]
      push_cast
      push_cast at hhalf
      linarith
    · rw [if_neg h2]
      by_cases h3 : (y.num.fdiv y.den).emod 2 = 0
      · rw [if_pos h3]
        linarith
      · rw [if_neg h3]
        push_cast
        push_cast at hhalf
        linarith

/-- `round(x, 3)` never exceeds `x` by more than `1/2000`. -/
lemma round3_le (x : Rat) : round3 x ≤ x + 1/2000 := by
  unfold round3
  rw [div_le_iff (by norm_num : (0 : Rat) < 1000)]
  have h := pyRound_le (x * 1000)
  linarith

/-- The total quantity a list of `(day, quantity)` pairs schedules on day `d`
(what a reservation fold adds to that day's counter). -/
def daySum {α : Type} [AddCommMonoid α] (l : List (Int × α)) (d : Int) : α :=
  (l.map (fun p => if p.1 = d then p.2 else 0)).sum

lemma daySum_nil {α : Type} [AddCommMonoid α] (d : Int) : daySum ([] : List (Int × α)) d = 0 :=
  rfl

lemma daySum_cons {α : Type} [AddCommMonoid α] (p : Int × α) (l : List (Int × α)) (d : Int) :
    daySum (p :: l) d = (if p.1 = d then p.2 else 0) + daySum l d := by
  simp [daySum]

lemma daySum_eq_zero {α : Type} [AddCommMonoid α] {l : List (Int × α)} {d : Int}
    (h : ∀ p ∈ l, p.1 ≠ d) : daySum l d = 0 := by
  induction l with
  | nil => rfl
  | cons p tl ih =>
    rw [daySum_cons, if_neg (h p (List.mem_cons_self p tl)),
      ih (fun q hq => h q (List.mem_cons_of_mem p hq)), add_zero]

/-- On a list whose days strictly increase, a day's total is either zero or
the quantity of the single entry scheduled on it. -/
lemma daySum_single {α : Type} [AddCommMonoid α] {l : List (Int × α)}
    (hp : l.Pairwise (fun a b => a.1 < b.1)) (d : Int) :
    daySum l d = 0 ∨ ∃ p ∈ l, p.1 = d ∧ daySum l d = p.2 := by
  induction l with
  | nil => exact Or.inl rfl
  | cons p tl ih =>
    have hhead : ∀ q ∈ tl, p.1 < q.1 := fun q hq => List.rel_of_pairwise_cons hp hq
    have htl : tl.Pairwise (fun a b => a.1 < b.1) := hp.of_cons
    by_cases hd : p.1 = d
    · have hz : daySum tl d = 0 := daySum_eq_zero (fun q hq => by
        have := hhead q hq; omega)
      right
      exact ⟨p, List.mem_cons_self p tl, hd, by rw [daySum_cons, if_pos hd, hz, add_zero]⟩
    · rw [daySum_cons, if_neg hd, zero_add]
      rcases ih htl with h | ⟨q, hq, hq1, hq2⟩
      · exact Or.inl h
      · exact Or.inr ⟨q, List.mem_cons_of_mem p hq, hq1, hq2⟩

/-- A strictly-increasing molding chain, read as pairwise order on mold days. -/
lemma molding_pairwise {l : List MoldEntry}
    (hch : List.Chain' (fun a b => a.mold_day < b.mold_day) l) :
    l.Pairwise (fun a b => a.mold_day < b.mold_day) := by
  have h1 : List.Chain' (· < ·) (l.map MoldEntry.mold_day) :=
    (List.chain'_map MoldEntry.mold_day).mpr hch
  have h2 : List.Pairwise (· < ·) (l.map MoldEntry.mold_day) :=
    List.chain'_iff_pairwise.mp h1
  exact List.pairwise_map.mp h2

/-- `tempSumOf` vanishes on every flask size other than the order's. -/
lemma tempSumOf_ne (o : Order) (l : List MoldEntry) (d : Int) {s : FlaskSize}
    (hs : s ≠ o.flask_size) : tempSumOf o l d s = 0 := by
  induction l with
  | nil => rfl
  | cons e tl ih =>
    simp only [tempSumOf, List.map_cons, List.sum_cons] at ih ⊢
    rw [if_neg (by tauto), ih, add_zero]

/-- The capacity configuration of two ledgers agrees (reservations never touch
the limits). -/
def LimitsEq (a b : ResourceManager) : Prop :=
  a.flask_limits = b.flask_limits ∧ a.max_molds_per_day = b.max_molds_per_day ∧
  a.max_pouring_tons_per_day = b.max_pouring_tons_per_day ∧
  a.max_patterns_per_day = b.max_patterns_per_day ∧
  a.max_staging_molds = b.max_staging_molds ∧
  a.max_same_part_molds_per_day = b.max_same_part_molds_per_day ∧
  a.product_family_max_mix = b.product_family_max_mix

lemma limitsEq_refl (a : ResourceManager) : LimitsEq a a :=
  ⟨rfl, rfl, rfl, rfl, rfl, rfl, rfl⟩

lemma limitsEq_trans {a b c : ResourceManager} (h1 : LimitsEq a b) (h2 : LimitsEq b c) :
    LimitsEq a c := by
  obtain ⟨a1, a2, a3, a4, a5, a6, a7⟩ := h1
  obtain ⟨b1, b2, b3, b4, b5, b6, b7⟩ := h2
  exact ⟨a1.trans b1, a2.trans b2, a3.trans b3, a4.trans b4, a5.trans b5,
    a6.trans b6, a7.trans b7⟩

/-- The reservations `firm_schedule` performs for one molding entry. -/
def moldCommitStep (o : Order) (rm : ResourceManager) (e : MoldEntry) : ResourceManager :=
  reserve_mix
    (reserve_flask
      (reserve_same_part (reserve_molds rm e.mold_day e.qty) e.mold_day o.order_id e.qty)
      e.mold_day e.flask_release_day o.flask_size e.qty)
    e.mold_day o.product_family e.qty

/-- Pointwise effect of one molding entry's reservations on every counter. -/
lemma moldCommitStep_fields (o : Order) (rm : ResourceManager) (e : MoldEntry) :
    LimitsEq rm (moldCommitStep o rm e) ∧
    (∀ d, (moldCommitStep o rm e).daily_molds d =
      rm.daily_molds d + (if e.mold_day = d then e.qty else 0)) ∧
    (∀ d p, (moldCommitStep o rm e).same_part_molds d p = rm.same_part_molds d p +
      (if p = o.order_id then (if e.mold_day = d then e.qty else 0) else 0)) ∧
    (∀ d s, (moldCommitStep o rm e).flask_pool d s = rm.flask_pool d s +
      (if e.mold_day ≤ d ∧ d ≤ e.flask_release_day ∧ s = o.flask_size then e.qty else 0)) ∧
    (∀ d f, (moldCommitStep o rm e).product_family_usage d f =
      rm.product_family_usage d f +
      (if (rm.product_family_max_mix.lookup o.product_family).isSome ∧ f = o.product_family
        then (if e.mold_day = d then e.qty else 0) else 0)) ∧
    (moldCommitStep o rm e).daily_pouring = rm.daily_pouring ∧
    (moldCommitStep o rm e).pattern_slots = rm.pattern_slots ∧
    (moldCommitStep o rm e).staging_area = rm.staging_area := by
  unfold moldCommitStep reserve_mix reserve_flask reserve_same_part reserve_molds
  dsimp only
  cases hlk : rm.product_family_max_mix.lookup o.product_family with
  | none =>
    dsimp only
    refine ⟨⟨rfl, rfl, rfl, rfl, rfl, rfl, rfl⟩, ?_, ?_, ?_, ?_, rfl, rfl, rfl⟩
    · intro d; split_ifs with h1 h2 <;> omega
    · intro d p
      by_cases hp : p = o.order_id
      · by_cases hd : e.mold_day = d
        · rw [if_pos ⟨hd.symm, hp⟩, if_pos hp, if_pos hd]
        · rw [if_neg (fun hc => hd hc.1.symm), if_pos hp, if_neg hd, add_zero]
      · rw [if_neg (fun hc => hp hc.2), if_neg hp, add_zero]
    · intro d s; split_ifs with h1 h2 <;> omega
    · intro d f
      rw [if_neg (by simp [hlk])]
      omega
  | some m =>
    dsimp only
    refine ⟨⟨rfl, rfl, rfl, rfl, rfl, rfl, rfl⟩, ?_, ?_, ?_, ?_, rfl, rfl, rfl⟩
    · intro d; split_ifs with h1 h2 <;> omega
    · intro d p
      by_cases hp : p = o.order_id
      · by_cases hd : e.mold_day = d
        · rw [if_pos ⟨hd.symm, hp⟩, if_pos hp, if_pos hd]
        · rw [if_neg (fun hc => hd hc.1.symm), if_pos hp, if_neg hd, add_zero]
      · rw [if_neg (fun hc => hp hc.2), if_neg hp, add_zero]
    · intro d s; split_ifs with h1 h2 <;> omega
    · intro d f
      by_cases hf : f = o.product_family
      · by_cases hd : e.mold_day = d
        · rw [if_pos ⟨hd.symm, hf⟩, if_pos ⟨by simp [hlk], hf⟩, if_pos hd]
        · rw [if_neg (fun hc => hd hc.1.symm), if_pos ⟨by simp [hlk], hf⟩,
            if_neg hd, add_zero]
      · rw [if_neg (fun hc => hf hc.2), if_neg (fun hc => hf hc.2), add_zero]

lemma tempSumOf_cons (o : Order) (e : MoldEntry) (l : List MoldEntry) (d : Int)
    (s : FlaskSize) :
    tempSumOf o (e :: l) d s =
      (if e.mold_day ≤ d ∧ d ≤ e.flask_release_day ∧ s = o.flask_size then e.qty else 0) +
        tempSumOf o l d s := by
  simp [tempSumOf]

/-- Accounting for the molding reservation fold of `firm_schedule`: each
counter gains exactly the per-day sums of the committed entries. -/
lemma moldFold_ledger (o : Order) (l : List MoldEntry) (rm : ResourceManager) :
    LimitsEq rm (l.foldl (moldCommitStep o) rm) ∧
    (∀ d, (l.foldl (moldCommitStep o) rm).daily_molds d =
      rm.daily_molds d + daySum (l.map (fun e => (e.mold_day, e.qty))) d) ∧
    (∀ d p, (l.foldl (moldCommitStep o) rm).same_part_molds d p =
      rm.same_part_molds d p +
      (if p = o.order_id then daySum (l.map (fun e => (e.mold_day, e.qty))) d else 0)) ∧
    (∀ d s, (l.foldl (moldCommitStep o) rm).flask_pool d s =
      rm.flask_pool d s + tempSumOf o l d s) ∧
    (∀ d f, (l.foldl (moldCommitStep o) rm).product_family_usage d f =
      rm.product_family_usage d f +
      (if (rm.product_family_max_mix.lookup o.product_family).isSome ∧ f = o.product_family
        then daySum (l.map (fun e => (e.mold_day, e.qty))) d else 0)) ∧
    (l.foldl (moldCommitStep o) rm).daily_pouring = rm.daily_pouring ∧
    (l.foldl (moldCommitStep o) rm).pattern_slots = rm.pattern_slots ∧
    (l.foldl (moldCommitStep o) rm).staging_area = rm.staging_area := by
  induction l generalizing rm with
  | nil =>
    refine ⟨limitsEq_refl rm, ?_, ?_, ?_, ?_, rfl, rfl, rfl⟩ <;>
      intros <;> simp [daySum, tempSumOf]
  | cons e tl ih =>
    simp only [List.foldl_cons, List.map_cons]
    obtain ⟨slim, smolds, spart, sflask, smix, spour, spat, sstg⟩ :=
      moldCommitStep_fields o rm e
    obtain ⟨ilim, imolds, ipart, iflask, imix, ipour, ipat, istg⟩ :=
      ih (moldCommitStep o rm e)
    have hpm := slim.2.2.2.2.2.2
    refine ⟨limitsEq_trans slim ilim, ?_, ?_, ?_, ?_, ipour.trans spour,
      ipat.trans spat, istg.trans sstg⟩
    · intro d; rw [imolds d, smolds d, daySum_cons]; ring
    · intro d p; rw [ipart, spart, daySum_cons]; split_ifs <;> ring
    · intro d s; rw [iflask, sflask, tempSumOf_cons]; ring
    · intro d f
      rw [imix, smix, daySum_cons, ← hpm]
      split_ifs <;> ring

/-- Accounting for the staging reservation fold of `firm_schedule`. -/
lemma stagingFold_ledger (l : List (Int × Int)) (rm : ResourceManager) :
    LimitsEq rm (l.foldl (fun rm p => reserve_staging rm p.1 p.2) rm) ∧
    (∀ d, (l.foldl (fun rm p => reserve_staging rm p.1 p.2) rm).staging_area d =
      rm.staging_area d + daySum l d) ∧
    (l.foldl (fun rm p => reserve_staging rm p.1 p.2) rm).daily_molds = rm.daily_molds ∧
    (l.foldl (fun rm p => reserve_staging rm p.1 p.2) rm).same_part_molds =
      rm.same_part_molds ∧
    (l.foldl (fun rm p => reserve_staging rm p.1 p.2) rm).flask_pool = rm.flask_pool ∧
    (l.foldl (fun rm p => reserve_staging rm p.1 p.2) rm).product_family_usage =
      rm.product_family_usage ∧
    (l.foldl (fun rm p => reserve_staging rm p.1 p.2) rm).daily_pouring =
      rm.daily_pouring ∧
    (l.foldl (fun rm p => reserve_staging rm p.1 p.2) rm).pattern_slots =
      rm.pattern_slots := by
  induction l generalizing rm with
  | nil =>
    refine ⟨limitsEq_refl rm, ?_, rfl, rfl, rfl, rfl, rfl, rfl⟩
    intro d; simp [daySum]
  | cons p tl ih =>
    simp only [List.foldl_cons]
    obtain ⟨ilim, istg, im, isp, ifl, ipf, ipo, ipa⟩ := ih (reserve_staging rm p.1 p.2)
    refine ⟨limitsEq_trans ⟨rfl, rfl, rfl, rfl, rfl, rfl, rfl⟩ ilim, ?_, im, isp, ifl,
      ipf, ipo, ipa⟩
    intro d
    rw [istg d, daySum_cons]
    unfold reserve_staging
    dsimp only
    split_ifs with h1 h2 <;> omega

/-- Accounting for the pouring reservation fold of `firm_schedule`. -/
lemma pouringFold_ledger (l : List (Int × Rat)) (rm : ResourceManager) :
    LimitsEq rm (l.foldl (fun rm p => reserve_pouring rm p.1 p.2) rm) ∧
    (∀ d, (l.foldl (fun rm p => reserve_pouring rm p.1 p.2) rm).daily_pouring d =
      rm.daily_pouring d + daySum l d) ∧
    (l.foldl (fun rm p => reserve_pouring rm p.1 p.2) rm).daily_molds = rm.daily_molds ∧
    (l.foldl (fun rm p => reserve_pouring rm p.1 p.2) rm).same_part_molds =
      rm.same_part_molds ∧
    (l.foldl (fun rm p => reserve_pouring rm p.1 p.2) rm).flask_pool = rm.flask_pool ∧
    (l.foldl (fun rm p => reserve_pouring rm p.1 p.2) rm).product_family_usage =
      rm.product_family_usage ∧
    (l.foldl (fun rm p => reserve_pouring rm p.1 p.2) rm).staging_area =
      rm.staging_area ∧
    (l.foldl (fun rm p => reserve_pouring rm p.1 p.2) rm).pattern_slots =
      rm.pattern_slots := by
  induction l generalizing rm with
  | nil =>
    refine ⟨limitsEq_refl rm, ?_, rfl, rfl, rfl, rfl, rfl, rfl⟩
    intro d; simp [daySum]
  | cons p tl ih =>
    simp only [List.foldl_cons]
    obtain ⟨ilim, ipo, im, isp, ifl, ipf, istg, ipa⟩ := ih (reserve_pouring rm p.1 p.2)
    refine ⟨limitsEq_trans ⟨rfl, rfl, rfl, rfl, rfl, rfl, rfl⟩ ilim, ?_, im, isp, ifl,
      ipf, istg, ipa⟩
    intro d
    rw [ipo d, daySum_cons]
    unfold reserve_pouring
    dsimp only
    split_ifs with h1 h2 <;> ring_nf <;> simp_all <;> ring

/-- Ledger accounting for `firm_schedule`: the committed ledger is the input
ledger plus the plan's per-day sums — molds, same-part (keyed by the order id)
and family mix on each molding day, flasks over each entry's occupation range,
staging and pouring on their own days; pattern slots are untouched and no
limit changes. -/
lemma firm_schedule_ledger (o : Order) (rm : ResourceManager) (plan : TrySchedule)
    (out : List (Int × Int) × List (Int × Int) × List (Int × Rat) ×
      List (Int × Int) × List (Int × Int))
    (endD : Int) (rm' : ResourceManager)
    (h : firm_schedule o rm plan = some (out, endD, rm')) :
    LimitsEq rm rm' ∧
    (∀ d, rm'.daily_molds d =
      rm.daily_molds d + daySum (plan.molding.map (fun e => (e.mold_day, e.qty))) d) ∧
    (∀ d p, rm'.same_part_molds d p = rm.same_part_molds d p +
      (if p = o.order_id
        then daySum (plan.molding.map (fun e => (e.mold_day, e.qty))) d else 0)) ∧
    (∀ d s, rm'.flask_pool d s = rm.flask_pool d s + tempSumOf o plan.molding d s) ∧
    (∀ d f, rm'.product_family_usage d f = rm.product_family_usage d f +
      (if (rm.product_family_max_mix.lookup o.product_family).isSome ∧ f = o.product_family
        then daySum (plan.molding.map (fun e => (e.mold_day, e.qty))) d else 0)) ∧
    (∀ d, rm'.staging_area d = rm.staging_area d + daySum plan.staging d) ∧
    (∀ d, rm'.daily_pouring d = rm.daily_pouring d + daySum plan.pouring d) ∧
    rm'.pattern_slots = rm.pattern_slots := by
  unfold firm_schedule at h
  dsimp only at h
  cases hlast : plan.finishing.getLast? with
  | none => rw [hlast] at h; cases h
  | some p =>
    obtain ⟨d0, q0⟩ := p
    rw [hlast] at h
    simp only [Option.some.injEq, Prod.mk.injEq] at h
    obtain ⟨-, -, hrm⟩ := h
    subst hrm
    have hfn : (fun rm e => reserve_mix
        (reserve_flask
          (reserve_same_part (reserve_molds rm e.mold_day e.qty) e.mold_day o.order_id e.qty)
          e.mold_day e.flask_release_day o.flask_size e.qty)
        e.mold_day o.product_family e.qty) = moldCommitStep o := rfl
    rw [hfn]
    obtain ⟨mlim, mmolds, mpart, mflask, mmix, mpour, mpat, mstg⟩ :=
      moldFold_ledger o plan.molding rm
    obtain ⟨slim, sstg, sdm, ssp, sfl, spf, spo, spa⟩ :=
      stagingFold_ledger plan.staging (plan.molding.foldl (moldCommitStep o) rm)
    obtain ⟨plim, ppo, pdm, psp, pfl, ppf, pstg, ppa⟩ :=
      pouringFold_ledger plan.pouring
        (plan.staging.foldl (fun rm p => reserve_staging rm p.1 p.2)
          (plan.molding.foldl (moldCommitStep o) rm))
    refine ⟨limitsEq_trans mlim (limitsEq_trans slim plim), ?_, ?_, ?_, ?_, ?_, ?_, ?_⟩
    · intro d
      exact (congrFun pdm d).trans ((congrFun sdm d).trans (mmolds d))
    · intro d p
      exact (congrFun (congrFun psp d) p).trans
        ((congrFun (congrFun ssp d) p).trans (mpart d p))
    · intro d s
      exact (congrFun (congrFun pfl d) s).trans
        ((congrFun (congrFun sfl d) s).trans (mflask d s))
    · intro d f
      exact (congrFun (congrFun ppf d) f).trans
        ((congrFun (congrFun spf d) f).trans (mmix d f))
    · intro d
      exact (congrFun pstg d).trans ((sstg d).trans (by rw [congrFun mstg d]))
    · intro d
      exact (ppo d).trans (by rw [congrFun spo d, congrFun mpour d])
    · exact ppa.trans (spa.trans mpat)

/-- The capacity invariant the committed ledger actually maintains: daily
molds, pattern slots and per-key same-part molds within their caps, daily
pouring within its cap plus the `round(.,3)` slack of at most `1/2000` t,
flask usage within the per-size limits, and configured family usage within
`mix * max_molds_per_day`.  (Staging is reserved but never checked, and the
same-part key is the order id, not the part number.) -/
def LedgerInv (rm : ResourceManager) : Prop :=
  (∀ d, rm.daily_molds d ≤ rm.max_molds_per_day) ∧
  (∀ d, rm.pattern_slots d ≤ rm.max_patterns_per_day) ∧
  (∀ d p, rm.same_part_molds d p ≤ rm.max_same_part_molds_per_day) ∧
  (∀ d, rm.daily_pouring d ≤ rm.max_pouring_tons_per_day + 1/2000) ∧
  (∀ d s, rm.flask_pool d s ≤ rm.flask_limits s) ∧
  (∀ d f m, rm.product_family_max_mix.lookup f = some m →
    (rm.product_family_usage d f : Rat) ≤ m * (rm.max_molds_per_day : Rat))

/-- Committing one successful dry-run keeps the capacity invariant. -/
lemma commit_preserves (o : Order) (c : CalendarM) (rm : ResourceManager)
    (start : Int) (fuel : Nat) (sched : TrySchedule)
    (out : List (Int × Int) × List (Int × Int) × List (Int × Rat) ×
      List (Int × Int) × List (Int × Int))
    (endD : Int) (rm' : ResourceManager)
    (htpm : 0 < (o.parts_per_mold : Rat) * o.part_weight_ton)
    (hinv : LedgerInv rm)
    (hts : try_schedule o start c rm fuel = some (some sched))
    (hfirm : firm_schedule o rm sched = some (out, endD, rm')) :
    LedgerInv rm' ∧ LimitsEq rm rm' := by
  have htot := (try_schedule_pos o c rm start fuel sched hts).le
  obtain ⟨hGood, hChain, hFlask, hStag, hPour, hShake, hSum, hne, -⟩ :=
    try_schedule_sound o c rm start fuel sched htpm htot hts
  obtain ⟨hlim, hdm, hsp, hfp, hpf, hstg, hpo, hpat⟩ :=
    firm_schedule_ledger o rm sched out endD rm' hfirm
  obtain ⟨hlim1, hlim2, hlim3, hlim4, hlim5, hlim6, hlim7⟩ := hlim
  obtain ⟨inv1, inv2, inv3, inv4, inv5, inv6⟩ := hinv
  have hpair : (sched.molding.map (fun e => (e.mold_day, e.qty))).Pairwise
      (fun a b => a.1 < b.1) := List.pairwise_map.mpr (molding_pairwise hChain)
  refine ⟨⟨?_, ?_, ?_, ?_, ?_, ?_⟩,
    ⟨hlim1, hlim2, hlim3, hlim4, hlim5, hlim6, hlim7⟩⟩
  · intro d
    rw [hdm d, ← hlim2]
    rcases daySum_single hpair d with hz | ⟨p, hp, hpd, hq⟩
    · rw [hz]; have := inv1 d; omega
    · rw [hq]
      obtain ⟨e, he, heq⟩ := List.mem_map.mp hp
      subst heq
      dsimp only at hpd ⊢
      subst hpd
      exact (hGood e he).2.2.2.1
  · intro d
    rw [congrFun hpat d, ← hlim4]
    exact inv2 d
  · intro d p
    rw [hsp d p, ← hlim6]
    by_cases hpo' : p = o.order_id
    · rw [if_pos hpo']
      rcases daySum_single hpair d with hz | ⟨q, hqm, hqd, hqs⟩
      · rw [hz]; have := inv3 d p; omega
      · rw [hqs]
        obtain ⟨e, he, heq⟩ := List.mem_map.mp hqm
        subst heq
        dsimp only at hqd ⊢
        subst hqd
        subst hpo'
        exact (hGood e he).2.2.2.2.1
    · rw [if_neg hpo', add_zero]
      exact inv3 d p
  · intro d
    rw [hpo d, ← hlim3]
    have hpair2 : sched.pouring.Pairwise (fun a b => a.1 < b.1) := by
      rw [hPour]
      refine List.pairwise_map.mpr ?_
      refine (molding_pairwise hChain).imp_of_mem ?_
      intro a b _ hbm hab
      dsimp only
      have hbiz := (hGood b hbm).2.1
      have h1 : pouringOf c a.mold_day ≤ b.mold_day := pouringOf_le c (by omega) hbiz
      have h2 := pouringOf_ge c b.mold_day
      omega
    rcases daySum_single hpair2 d with hz | ⟨p, hp, hpd, hq⟩
    · rw [hz]; have := inv4 d; linarith
    · rw [hq]
      rw [hPour] at hp
      obtain ⟨e, he, heq⟩ := List.mem_map.mp hp
      subst heq
      dsimp only at hpd ⊢
      have hb := (hGood e he).2.2.2.2.2.1
      have hr3 := round3_le ((e.qty : Rat) * ((o.parts_per_mold : Rat) * o.part_weight_ton))
      rw [← hpd]
      linarith
  · intro d s
    rw [hfp d s, ← hlim1]
    by_cases hs : s = o.flask_size
    · rw [hs]
      exact le_trans (hFlask d) (max_le (inv5 d o.flask_size) le_rfl)
    · rw [tempSumOf_ne o _ d hs, add_zero]
      exact inv5 d s
  · intro d f m hm
    rw [← hlim7] at hm
    rw [hpf d f, ← hlim2]
    by_cases hc : (rm.product_family_max_mix.lookup o.product_family).isSome ∧
        f = o.product_family
    · rw [if_pos hc]
      obtain ⟨-, hf⟩ := hc
      subst hf
      rcases daySum_single hpair d with hz | ⟨p, hp, hpd, hq⟩
      · rw [hz, add_zero]
        exact inv6 d o.product_family m hm
      · rw [hq]
        obtain ⟨e, he, heq⟩ := List.mem_map.mp hp
        subst heq
        dsimp only at hpd ⊢
        have hg7 := (hGood e he).2.2.2.2.2.2 m hm
        have hfl : ((Int.floor (m * (rm.max_molds_per_day : Rat)) : Int) : Rat) ≤
            m * (rm.max_molds_per_day : Rat) := Int.floor_le _
        subst hpd
        calc ((rm.product_family_usage e.mold_day o.product_family + e.qty : Int) : Rat)
            ≤ ((Int.floor (m * (rm.max_molds_per_day : Rat)) : Int) : Rat) := by
              exact_mod_cast hg7
          _ ≤ m * (rm.max_molds_per_day : Rat) := hfl
    · rw [if_neg hc, add_zero]
      exact inv6 d f m hm

/-- `plan_order` keeps the capacity invariant: it either leaves the ledger
untouched or commits one gated dry-run. -/
lemma plan_order_preserves (o : Order) (c : CalendarM) (rm : ResourceManager)
    (today msd sdays : Int) (sd? : Option Int) (fuel : Nat)
    (r : PlanResult) (rm' : ResourceManager) (o' : Order)
    (htpm : 0 < (o.parts_per_mold : Rat) * o.part_weight_ton)
    (hinv : LedgerInv rm)
    (h : plan_order o c rm today msd sdays sd? fuel = some (r, rm', o')) :
    LedgerInv rm' ∧ LimitsEq rm rm' := by
  rcases plan_order_cases o c rm today msd sdays sd? fuel r rm' o' h with ⟨-, hcase⟩
  rcases hcase with ⟨-, hrm⟩ | ⟨start, endD, sched, ms, st, po, sh, fi, hts, hfirm, -⟩
  · rw [hrm]
    exact ⟨hinv, limitsEq_refl rm⟩
  · exact commit_preserves o c rm start fuel sched (ms, st, po, sh, fi) endD rm'
      htpm hinv hts hfirm

/-- A gated pattern reservation keeps the capacity invariant. -/
lemma reserve_pattern_inv (rm : ResourceManager) (ptr : Int)
    (hcan : can_schedule_pattern rm ptr = true) (hinv : LedgerInv rm) :
    LedgerInv (reserve_pattern rm ptr) ∧ LimitsEq rm (reserve_pattern rm ptr) := by
  obtain ⟨inv1, inv2, inv3, inv4, inv5, inv6⟩ := hinv
  have hlt : rm.pattern_slots ptr < rm.max_patterns_per_day :=
    of_decide_eq_true hcan
  refine ⟨⟨inv1, ?_, inv3, inv4, inv5, inv6⟩, rfl, rfl, rfl, rfl, rfl, rfl, rfl⟩
  intro d
  unfold reserve_pattern
  dsimp only
  split_ifs with hd
  · subst hd; omega
  · exact inv2 d

/-- The pattern-manufacturing loop keeps the capacity invariant. -/
lemma patternLoop_preserves (c : CalendarM) :
    ∀ (fuel : Nat) (rm : ResourceManager) (remaining ptr : Int) (acc : List (Int × Int))
      (entries : List (Int × Int)) (rm' : ResourceManager),
      patternLoop c fuel rm remaining ptr acc = some (entries, rm') →
      LedgerInv rm → LedgerInv rm' ∧ LimitsEq rm rm' := by
  intro fuel
  induction fuel with
  | zero =>
    intro rm remaining ptr acc entries rm' h hinv
    unfold patternLoop at h
    by_cases h0 : remaining ≤ 0
    · rw [if_pos h0] at h
      simp only [Option.some.injEq, Prod.mk.injEq] at h
      obtain ⟨-, hrm⟩ := h
      subst hrm
      exact ⟨hinv, limitsEq_refl rm⟩
    · rw [if_neg h0] at h
      cases h
  | succ n ih =>
    intro rm remaining ptr acc entries rm' h hinv
    unfold patternLoop at h
    by_cases h0 : remaining ≤ 0
    · rw [if_pos h0] at h
      simp only [Option.some.injEq, Prod.mk.injEq] at h
      obtain ⟨-, hrm⟩ := h
      subst hrm
      exact ⟨hinv, limitsEq_refl rm⟩
    · rw [if_neg h0] at h
      by_cases hb : is_business_day c ptr ∧ can_schedule_pattern rm ptr
      · rw [if_pos hb] at h
        obtain ⟨hinv1, hlim1⟩ := reserve_pattern_inv rm ptr hb.2 ⟨hinv.1, hinv.2.1,
          hinv.2.2.1, hinv.2.2.2.1, hinv.2.2.2.2.1, hinv.2.2.2.2.2⟩
        obtain ⟨hinv2, hlim2⟩ := ih (reserve_pattern rm ptr) (remaining - 1)
          (next_business_day c ptr) (acc ++ [(ptr, 1)]) entries rm' h hinv1
        exact ⟨hinv2, limitsEq_trans hlim1 hlim2⟩
      · rw [if_neg hb] at h
        exact ih rm remaining (next_business_day c ptr) acc entries rm' h hinv

/-- `plan_full_order` keeps the capacity invariant: its ledger effects are the
gated pattern loop and at most two `plan_order` commits. -/
lemma plan_full_order_preserves (o : Order) (c : CalendarM) (rm : ResourceManager)
    (today msd sdays dap das : Int) (fuel : Nat)
    (r : PlanResult) (rm' : ResourceManager)
    (htpm : 0 < (o.parts_per_mold : Rat) * o.part_weight_ton)
    (hinv : LedgerInv rm)
    (h : plan_full_order o c rm today msd sdays dap das fuel = some (r, rm')) :
    LedgerInv rm' ∧ LimitsEq rm rm' := by
  unfold plan_full_order at h
  by_cases hnew : o.is_new
  · rw [if_neg (by simp [hnew])] at h
    cases hpat : patternLoop c fuel rm o.pattern_days today [] with
    | none => rw [hpat] at h; cases h
    | some pres =>
      obtain ⟨patternEntries, rm1⟩ := pres
      obtain ⟨hinvP, hlimP⟩ :=
        patternLoop_preserves c fuel rm o.pattern_days today [] patternEntries rm1 hpat hinv
      rw [hpat] at h
      dsimp only at h
      cases hlast : patternEntries.getLast? with
      | none => rw [hlast] at h; cases h
      | some pe =>
        obtain ⟨pattern_end, pq⟩ := pe
        rw [hlast] at h
        dsimp only at h
        cases hsp : plan_order (sampleOrderOf o) c rm1 today msd 0
            (some (add_business_days c pattern_end dap)) fuel with
        | none => rw [hsp] at h; cases h
        | some sres =>
          obtain ⟨sample_plan, rm2, so2⟩ := sres
          obtain ⟨hinvS, hlimS⟩ := plan_order_preserves (sampleOrderOf o) c rm1 today msd 0
            (some (add_business_days c pattern_end dap)) fuel sample_plan rm2 so2
            (by exact htpm) hinvP hsp
          have hlimPS := limitsEq_trans hlimP hlimS
          rw [hsp] at h
          dsimp only at h
          by_cases hsu : sample_plan.status = OrderStatus.UNSCHEDULED
          · rw [if_pos hsu] at h
            simp only [Option.some.injEq, Prod.mk.injEq] at h
            obtain ⟨-, hrm⟩ := h
            rw [← hrm]
            exact ⟨hinvS, hlimPS⟩
          · rw [if_neg hsu] at h
            cases hse : sample_plan.end_date with
            | none => rw [hse] at h; cases h
            | some sample_end =>
              rw [hse] at h
              dsimp only at h
              cases hmp : plan_order
                  { o with parts_total := o.parts_total - (sampleOrderOf o).parts_total,
                           total_molds := ceilDiv
                             (o.parts_total - (sampleOrderOf o).parts_total)
                             o.parts_per_mold } c rm2 today msd sdays
                  (some (add_business_days c sample_end das)) fuel with
              | none => rw [hmp] at h; cases h
              | some mres =>
                obtain ⟨main_plan, rm3, mo2⟩ := mres
                obtain ⟨hinvM, hlimM⟩ := plan_order_preserves _ c rm2 today msd sdays
                  (some (add_business_days c sample_end das)) fuel main_plan rm3 mo2
                  (by exact htpm) hinvS hmp
                have hlimPSM := limitsEq_trans hlimPS hlimM
                rw [hmp] at h
                dsimp only at h
                by_cases hmu : main_plan.status = OrderStatus.UNSCHEDULED
                · rw [if_pos hmu] at h
                  simp only [Option.some.injEq, Prod.mk.injEq] at h
                  obtain ⟨-, hrm⟩ := h
                  rw [← hrm]
                  exact ⟨hinvM, hlimPSM⟩
                · rw [if_neg hmu] at h
                  cases hme : main_plan.end_date with
                  | none => rw [hme] at h; cases h
                  | some main_end =>
                    cases hhd : patternEntries.head? with
                    | none => rw [hme, hhd] at h; cases h
                    | some firstPattern =>
                      rw [hme, hhd] at h
                      dsimp only at h
                      simp only [Option.some.injEq, Prod.mk.injEq] at h
                      obtain ⟨-, hrm⟩ := h
                      rw [← hrm]
                      exact ⟨hinvM, hlimPSM⟩
  · rw [if_pos (by simp [hnew])] at h
    cases hpo : plan_order o c rm today msd sdays none fuel with
    | none => rw [hpo] at h; cases h
    | some pres =>
      obtain ⟨r0, rm0, o0⟩ := pres
      rw [hpo] at h
      simp only [Option.some.injEq, Prod.mk.injEq] at h
      obtain ⟨-, hrm⟩ := h
      rw [← hrm]
      exact plan_order_preserves o c rm today msd sdays none fuel r0 rm0 o0 htpm hinv hpo

lemma mem_insSorted (key : Order → Int) (x : Order) :
    ∀ (l : List Order) (y : Order), y ∈ insSorted key x l → y = x ∨ y ∈ l := by
  intro l
  induction l with
  | nil =>
    intro y hy
    rcases List.mem_singleton.mp hy with rfl
    exact Or.inl rfl
  | cons z zs ih =>
    intro y hy
    unfold insSorted at hy
    by_cases hc : key z < key x
    · rw [if_pos hc] at hy
      rcases List.mem_cons.mp hy with h1 | hy
      · exact Or.inr (by rw [h1]; exact List.mem_cons_self z zs)
      · rcases ih y hy with h | h
        · exact Or.inl h
        · exact Or.inr (List.mem_cons_of_mem z h)
    · rw [if_neg hc] at hy
      rcases List.mem_cons.mp hy with rfl | hy
      · exact Or.inl rfl
      · exact Or.inr hy

lemma mem_sortByKey (key : Order → Int) :
    ∀ (l : List Order) (y : Order), y ∈ sortByKey key l → y ∈ l := by
  intro l
  induction l with
  | nil => intro y hy; cases hy
  | cons x xs ih =>
    intro y hy
    unfold sortByKey at hy
    rcases mem_insSorted key x (sortByKey key xs) y hy with h1 | hy
    · rw [h1]
      exact List.mem_cons_self x xs
    · exact List.mem_cons_of_mem x (ih y hy)

/-- The per-order loop of `main.py` keeps the capacity invariant. -/
lemma runPlannerGo_preserves (c : CalendarM) (today : Int) (fuel : Nat) :
    ∀ (os : List Order) (rm : ResourceManager) (acc : List (String × PlanResult))
      (plans : List (String × PlanResult)) (rm' : ResourceManager),
      (∀ o ∈ os, 0 < (o.parts_per_mold : Rat) * o.part_weight_ton) →
      LedgerInv rm →
      runPlannerGo c today fuel os rm acc = some (plans, rm') →
      LedgerInv rm' ∧ LimitsEq rm rm' := by
  intro os
  induction os with
  | nil =>
    intro rm acc plans rm' hwf hinv h
    unfold runPlannerGo at h
    simp only [Option.some.injEq, Prod.mk.injEq] at h
    obtain ⟨-, hrm⟩ := h
    rw [← hrm]
    exact ⟨hinv, limitsEq_refl rm⟩
  | cons o os ih =>
    intro rm acc plans rm' hwf hinv h
    unfold runPlannerGo at h
    cases hpf : plan_full_order o c rm today 30 3 3 3 fuel with
    | none => rw [hpf] at h; cases h
    | some pres =>
      obtain ⟨plan, rm1⟩ := pres
      obtain ⟨hinv1, hlim1⟩ := plan_full_order_preserves o c rm today 30 3 3 3 fuel
        plan rm1 (hwf o (List.mem_cons_self o os)) hinv hpf
      rw [hpf] at h
      obtain ⟨hinv2, hlim2⟩ := ih rm1 (acc ++ [(o.order_id, plan)]) plans rm'
        (fun o' ho' => hwf o' (List.mem_cons_of_mem o ho')) hinv1 h
      exact ⟨hinv2, limitsEq_trans hlim1 hlim2⟩

/-- The full batch run keeps the capacity invariant. -/
lemma runPlanner_preserves (orders : List Order) (c : CalendarM) (rm : ResourceManager)
    (today : Int) (fuel : Nat) (plans : List (String × PlanResult))
    (rm' : ResourceManager)
    (hwf : ∀ o ∈ orders, 0 < (o.parts_per_mold : Rat) * o.part_weight_ton)
    (hinv : LedgerInv rm)
    (h : runPlanner orders c rm today fuel = some (plans, rm')) :
    LedgerInv rm' ∧ LimitsEq rm rm' := by
  unfold runPlanner at h
  exact runPlannerGo_preserves c today fuel (sortByKey (slackKey rm today) orders) rm []
    plans rm' (fun o ho => hwf o (mem_sortByKey (slackKey rm today) orders o ho)) hinv h

/-- The empty ledger of the generous witness configuration satisfies the
capacity invariant. -/
lemma ledgerInv_rmWide : LedgerInv rmWide := by
  refine ⟨?_, ?_, ?_, ?_, ?_, ?_⟩
  · intro d; norm_num [rmWide, ResourceManager.init]
  · intro d; norm_num [rmWide, ResourceManager.init]
  · intro d p; norm_num [rmWide, ResourceManager.init]
  · intro d; norm_num [rmWide, ResourceManager.init]
  · intro d s; norm_num [rmWide, ResourceManager.init]
  · intro d f m hm
    simp [rmWide, ResourceManager.init] at hm

/-- C4 (amended).  The claim as written fails (see the counterexample): the
code never checks staging, tracks the same-part cap under the order id rather
than the part number, rounds each pouring reservation to 3 decimals so a day
can exceed the tonnage cap by up to 1/2000 t, and lets a new order's sample
molds (planned under product family `''`) escape the family-mix bound of the
order's own family.  What the planner does maintain, for every batch run on
well-formed orders from a ledger within its caps, is the ledger-level
invariant: daily molds, pattern slots and per-key (order-id) same-part molds
within their caps, daily pouring within its cap plus 1/2000 t, flask usage
within the per-size limits, configured-family usage within
`mix * max_molds_per_day`, and no capacity limit ever changes. -/
theorem claim_C4 (orders : List Order) (c : CalendarM) (rm : ResourceManager)
    (today : Int) (fuel : Nat) (plans : List (String × PlanResult))
    (rm' : ResourceManager)
    (hwf : ∀ o ∈ orders, 0 < (o.parts_per_mold : Rat) * o.part_weight_ton)
    (hinv : LedgerInv rm)
    (h : runPlanner orders c rm today fuel = some (plans, rm')) :
    LedgerInv rm' ∧ LimitsEq rm rm' :=
  runPlanner_preserves orders c rm today fuel plans rm' hwf hinv h

/-- The batch run of `orderA1` on the generous ledger, and its final ledger. -/
def c4wRun : Option (List (String × PlanResult) × ResourceManager) :=
  runPlanner [orderA1] calNoHolidays rmWide 0 40

def c4wRm : ResourceManager := (c4wRun.getD ([], rmWide)).2

unseal Rat.mul Rat.inv Rat.add Rat.sub in
/-- Witness for C4 on a concrete successful batch run. -/
theorem claim_C4_witness : LedgerInv c4wRm ∧ LimitsEq rmWide c4wRm :=
  claim_C4 [orderA1] calNoHolidays rmWide 0 40 (c4wRun.getD ([], rmWide)).1 c4wRm
    (by
      intro o ho
      rw [List.mem_singleton] at ho
      subst ho
      norm_num [orderA1])
    ledgerInv_rmWide rfl

/-- C5.  Over any batch run from a ledger within its caps, the committed
flask pool — the per-day, per-size sum of flasks held by every committed
order over its `[molding_day, shakeout_day]` occupation ranges
(`reserve_flask`, `flask_release_day = shakeout`) — never exceeds the
per-size limit on any day; and any single order's successful dry-run against
the resulting ledger keeps the committed pool plus the order's own tentative
overlay within the limit on every day, because `compute_available_flasks`
reads the ledger plus the overlay summed. -/
theorem claim_C5 (orders : List Order) (c : CalendarM) (rm : ResourceManager)
    (today : Int) (fuel : Nat) (plans : List (String × PlanResult))
    (rm' : ResourceManager)
    (hwf : ∀ o ∈ orders, 0 < (o.parts_per_mold : Rat) * o.part_weight_ton)
    (hinv : LedgerInv rm)
    (h : runPlanner orders c rm today fuel = some (plans, rm')) :
    (∀ d s, rm'.flask_pool d s ≤ rm.flask_limits s) ∧
    (∀ (o2 : Order) (start : Int) (fuel2 : Nat) (sched : TrySchedule),
      0 < (o2.parts_per_mold : Rat) * o2.part_weight_ton →
      try_schedule o2 start c rm' fuel2 = some (some sched) →
      ∀ d, rm'.flask_pool d o2.flask_size +
          tempSumOf o2 sched.molding d o2.flask_size ≤
        rm.flask_limits o2.flask_size) := by
  obtain ⟨hinv', hlim⟩ := runPlanner_preserves orders c rm today fuel plans rm' hwf hinv h
  have hfl : rm.flask_limits = rm'.flask_limits := hlim.1
  constructor
  · intro d s
    rw [hfl]
    exact hinv'.2.2.2.2.1 d s
  · intro o2 start fuel2 sched htpm2 hts2 d
    have htot2 := (try_schedule_pos o2 c rm' start fuel2 sched hts2).le
    obtain ⟨-, -, hFlask, -⟩ :=
      try_schedule_sound o2 c rm' start fuel2 sched htpm2 htot2 hts2
    rw [hfl]
    exact le_trans (hFlask d) (max_le (hinv'.2.2.2.2.1 d o2.flask_size) le_rfl)

/-- The batch run of `orderB1` on the generous ledger, and its final ledger. -/
def c5wRun : Option (List (String × PlanResult) × ResourceManager) :=
  runPlanner [orderB1] calNoHolidays rmWide 0 40

def c5wRm : ResourceManager := (c5wRun.getD ([], rmWide)).2

unseal Rat.mul Rat.inv Rat.add Rat.sub in
/-- Witness for C5 on a concrete successful batch run. -/
theorem claim_C5_witness :
    (∀ d s, c5wRm.flask_pool d s ≤ rmWide.flask_limits s) ∧
    (∀ (o2 : Order) (start : Int) (fuel2 : Nat) (sched : TrySchedule),
      0 < (o2.parts_per_mold : Rat) * o2.part_weight_ton →
      try_schedule o2 start calNoHolidays c5wRm fuel2 = some (some sched) →
      ∀ d, c5wRm.flask_pool d o2.flask_size +
          tempSumOf o2 sched.molding d o2.flask_size ≤
        rmWide.flask_limits o2.flask_size) :=
  claim_C5 [orderB1] calNoHolidays rmWide 0 40 (c5wRun.getD ([], rmWide)).1 c5wRm
    (by
      intro o ho
      rw [List.mem_singleton] at ho
      subst ho
      norm_num [orderB1])
    ledgerInv_rmWide rfl

/-! Spec-side formalisation of C4's capacity property, written from the
spec's words: per-day sums of scheduled quantities across all emitted plans,
checked against each capacity. -/

/-- Spec reading: the quantity a phase list schedules on day `d`. -/
def specPhaseOnDay {α : Type} [AddCommMonoid α] (l : List (Int × α)) (d : Int) : α :=
  ((l.filter (fun p => p.1 = d)).map Prod.snd).sum

/-- Spec reading: molds scheduled on day `d` summed across all emitted plans. -/
def specMoldsOnDay (plans : List (String × PlanResult)) (d : Int) : Int :=
  (plans.map (fun pr => specPhaseOnDay pr.2.schedule.molding d)).sum

/-- Spec reading: pouring tons on day `d` summed across all emitted plans. -/
def specPouringOnDay (plans : List (String × PlanResult)) (d : Int) : Rat :=
  (plans.map (fun pr => specPhaseOnDay pr.2.schedule.pouring d)).sum

/-- Spec reading: pattern slots on day `d` summed across all emitted plans. -/
def specPatternOnDay (plans : List (String × PlanResult)) (d : Int) : Int :=
  (plans.map (fun pr => specPhaseOnDay pr.2.schedule.pattern d)).sum

/-- Spec reading: staging molds on day `d` summed across all emitted plans. -/
def specStagingOnDay (plans : List (String × PlanResult)) (d : Int) : Int :=
  (plans.map (fun pr => specPhaseOnDay pr.2.schedule.staging d)).sum

/-- Spec reading: each order paired with its emitted plan (by order id). -/
def specPairs (orders : List Order) (plans : List (String × PlanResult)) :
    List (Order × PlanResult) :=
  orders.filterMap (fun o => (plans.lookup o.order_id).map (fun r => (o, r)))

/-- Spec reading: molds of part `part` on day `d` summed across all orders. -/
def specSamePartOnDay (orders : List Order) (plans : List (String × PlanResult))
    (part : String) (d : Int) : Int :=
  (((specPairs orders plans).filter (fun p => p.1.part_number = part)).map
    (fun p => specPhaseOnDay p.2.schedule.molding d)).sum

/-- Spec reading: molds of family `fam` on day `d` summed across all orders. -/
def specFamilyOnDay (orders : List Order) (plans : List (String × PlanResult))
    (fam : String) (d : Int) : Int :=
  (((specPairs orders plans).filter (fun p => p.1.product_family = fam)).map
    (fun p => specPhaseOnDay p.2.schedule.molding d)).sum

/-- The claim as the spec states it: every emitted batch plan respects every
capacity on every day. -/
def SpecC4 : Prop :=
  ∀ (orders : List Order) (c : CalendarM) (rm : ResourceManager) (today : Int)
    (fuel : Nat) (plans : List (String × PlanResult)) (rm' : ResourceManager),
    runPlanner orders c rm today fuel = some (plans, rm') →
    ∀ d : Int,
      specMoldsOnDay plans d ≤ rm.max_molds_per_day ∧
      specPouringOnDay plans d ≤ rm.max_pouring_tons_per_day ∧
      specPatternOnDay plans d ≤ rm.max_patterns_per_day ∧
      specStagingOnDay plans d ≤ rm.max_staging_molds ∧
      (∀ part, specSamePartOnDay orders plans part d ≤ rm.max_same_part_molds_per_day) ∧
      (∀ f m, rm.product_family_max_mix.lookup f = some m →
        specFamilyOnDay orders plans f d ≤ ratFloor (m * (rm.max_molds_per_day : Rat)))

/-- The pouring conjunct of the claim alone. -/
def SpecC4Pouring : Prop :=
  ∀ (orders : List Order) (c : CalendarM) (rm : ResourceManager) (today : Int)
    (fuel : Nat) (plans : List (String × PlanResult)) (rm' : ResourceManager),
    runPlanner orders c rm today fuel = some (plans, rm') →
    ∀ d : Int, specPouringOnDay plans d ≤ rm.max_pouring_tons_per_day

/-- The per-part-number conjunct of the claim alone. -/
def SpecC4SamePart : Prop :=
  ∀ (orders : List Order) (c : CalendarM) (rm : ResourceManager) (today : Int)
    (fuel : Nat) (plans : List (String × PlanResult)) (rm' : ResourceManager),
    runPlanner orders c rm today fuel = some (plans, rm') →
    ∀ (d : Int) (part : String),
      specSamePartOnDay orders plans part d ≤ rm.max_same_part_molds_per_day

/-- The per-family conjunct of the claim alone. -/
def SpecC4Family : Prop :=
  ∀ (orders : List Order) (c : CalendarM) (rm : ResourceManager) (today : Int)
    (fuel : Nat) (plans : List (String × PlanResult)) (rm' : ResourceManager),
    runPlanner orders c rm today fuel = some (plans, rm') →
    ∀ (d : Int) (f : String) (m : Rat), rm.product_family_max_mix.lookup f = some m →
      specFamilyOnDay orders plans f d ≤ ratFloor (m * (rm.max_molds_per_day : Rat))

/-- Scenario A: `orderA1` (2 molds in one day) against `max_staging_molds = 1`. -/
def cxRunA : Option (List (String × PlanResult) × ResourceManager) :=
  runPlanner [orderA1] calNoHolidays rmStaging 0 40

def cxPlansA : List (String × PlanResult) := (cxRunA.getD ([], rmStaging)).1

def cxRmA : ResourceManager := (cxRunA.getD ([], rmStaging)).2

/-- Scenario B: `orderB1` (one mold at exactly the 0.0006 t pouring cap,
reserved as `round(0.0006, 3) = 0.001`). -/
def cxRunB : Option (List (String × PlanResult) × ResourceManager) :=
  runPlanner [orderB1] calNoHolidays rmPouring 0 40

def cxPlansB : List (String × PlanResult) := (cxRunB.getD ([], rmPouring)).1

def cxRmB : ResourceManager := (cxRunB.getD ([], rmPouring)).2

/-- Scenario C: two orders sharing part number `"P"` against
`max_same_part_molds_per_day = 1`. -/
def cxRunC : Option (List (String × PlanResult) × ResourceManager) :=
  runPlanner [orderC1, orderC2] calNoHolidays rmSamePart 0 40

def cxPlansC : List (String × PlanResult) := (cxRunC.getD ([], rmSamePart)).1

def cxRmC : ResourceManager := (cxRunC.getD ([], rmSamePart)).2

/-- Scenario D: the new order `orderD1` of family `"F"` (50% mix cap, so 5
molds/day) whose 6 sample molds are planned under family `''`. -/
def cxRunD : Option (List (String × PlanResult) × ResourceManager) :=
  runPlanner [orderD1] calNoHolidays rmFamily 0 80

def cxPlansD : List (String × PlanResult) := (cxRunD.getD ([], rmFamily)).1

def cxRmD : ResourceManager := (cxRunD.getD ([], rmFamily)).2

unseal Rat.mul Rat.inv Rat.add Rat.sub in
/-- Counterexample to C4 as claimed.  Staging: `orderA1`'s 2 molds stage
together on day 1 against a cap of 1 (refuting the whole claim).  Pouring:
`orderB1`'s single mold is reserved as `round(0.0006, 3) = 0.001` t against a
cap of 0.0006.  Same part: `orderC1`/`orderC2` both mold part `"P"` on day 0
against a per-part cap of 1, because the code keys the cap by order id.
Family mix: `orderD1`'s 6 sample molds land on one day against family
`"F"`'s cap of 5, because the sample is planned under family `''`. -/
theorem claim_C4_counterexample :
    ¬ SpecC4 ∧ ¬ SpecC4Pouring ∧ ¬ SpecC4SamePart ∧ ¬ SpecC4Family := by
  refine ⟨fun hc => ?_, fun hc => ?_, fun hc => ?_, fun hc => ?_⟩
  · have h := (hc [orderA1] calNoHolidays rmStaging 0 40 cxPlansA cxRmA rfl 1).2.2.2.1
    exact absurd h (by decide)
  · have h := hc [orderB1] calNoHolidays rmPouring 0 40 cxPlansB cxRmB rfl 1
    exact absurd h (by decide)
  · have h := hc [orderC1, orderC2] calNoHolidays rmSamePart 0 40 cxPlansC cxRmC rfl 0 "P"
    exact absurd h (by decide)
  · have h := hc [orderD1] calNoHolidays rmFamily 0 80 cxPlansD cxRmD rfl 3 "F" (1/2)
      (by decide)
    exact absurd h (by decide)
